import Mathlib

/-
Verification development for the UEFITool firmware image parser.

The repository contains two generations of the engine: the files under
src/common (ByteArray/CBString based, STATUS codes) and the files under
src/unnamed (part_002 = bytearray.h + ffs.cpp + treemodel.cpp,
part_003 = the newer UByteArray based ffsparser.cpp, part_004 = treemodel.h).
Where both copies of a function exist and differ, both are embedded and the
difference is proved.

Bytes are modelled as `List Nat` (each entry < 256 on real inputs), machine
integers as `Nat`/`Int` with explicit reductions modulo 2^16 / 2^32 / 2^64
where the C code truncates; a thrown `std::out_of_range` is modelled as
`Option.none`.
-/

namespace UEFITool

/-- Reduction modulo 2^32, the semantics of storing into a `UINT32`. -/
def u32 (n : Nat) : Nat := n % 4294967296

/-- C `UINT32` subtraction `a - b` (wrap-around, both operands already
reduced to 32 bits by `u32`). -/
def u32sub (a b : Nat) : Nat := u32 (u32 a + (4294967296 - u32 b))

/-- C `UINT32` addition. -/
def u32add (a b : Nat) : Nat := u32 (a + b)

/-- Two's-complement conversion of a C integer value to `size_t`
(64-bit unsigned), as happens when an `int32_t` argument is passed to a
`std::basic_string<char>` member function. -/
def toSizeT (i : Int) : Nat := (i % (18446744073709551616 : Int)).toNat

/-- Conversion of a `size_t` value to a 32-bit C `int` (take the low 32 bits,
two's complement): this is how `std::basic_string::find`'s result, possibly
`npos`, becomes the `int` return value of `ByteArray::indexOf`. -/
def intOfSizeT (n : Nat) : Int :=
  let m := n % 4294967296
  if m < 2147483648 then (m : Int) else (m : Int) - 4294967296

/-- The `std::basic_string<char>::npos` sentinel. -/
def npos : Nat := 18446744073709551615

/-- Model of `std::basic_string<char>::substr(pos, count)`: throws
`std::out_of_range` when `pos > size()` (modelled as `none`), otherwise
returns at most `count` characters starting at `pos`. -/
def substr? (d : List Nat) (pos count : Nat) : Option (List Nat) :=
  if d.length < pos then none
  else some ((d.drop pos).take count)

/-- The `ByteArray::left(len)` slicer from src/unnamed/part_002 line 45:
`d.substr(0, len)`. -/
def left (d : List Nat) (len : Int) : Option (List Nat) :=
  substr? d 0 (toSizeT len)

/-- The `ByteArray::right(len)` slicer from src/unnamed/part_002 line 46:
`d.substr(d.size() - 1 - len, len)`. Note the starting position
`size - 1 - len` (computed in `size_t` arithmetic). -/
def right (d : List Nat) (len : Int) : Option (List Nat) :=
  substr? d (toSizeT ((d.length : Int) - 1 - len)) (toSizeT len)

/-- The `ByteArray::mid(pos, len)` slicer from src/unnamed/part_002 line 47:
`d.substr(pos, len)`; the default `len = -1` becomes `npos` after conversion
to `size_t` and therefore takes the rest of the buffer. -/
def mid (d : List Nat) (pos : Int) (len : Int := -1) : Option (List Nat) :=
  substr? d (toSizeT pos) (toSizeT len)

/-- Model of `std::basic_string::find(pattern, from)`: the smallest position
`i ≥ from` with `i + pattern.size ≤ size` at which the pattern occurs, or
`npos` when there is none. -/
def strFind (d pat : List Nat) (fromPos : Nat) : Nat :=
  match (List.range (d.length + 1)).find?
      (fun i => fromPos ≤ i && pat.isPrefixOf (d.drop i) && i + pat.length ≤ d.length) with
  | some i => i
  | none => npos

/-- The `ByteArray::indexOf(ba, from)` operation from src/unnamed/part_002
line 42: `return d.find(ba.d, from);` with the `size_t` result converted to
the `int` return type. -/
def indexOf (d pat : List Nat) (fromPos : Int) : Int :=
  intOfSizeT (strFind d pat (toSizeT fromPos))

/-- The `ByteArray::count(ch)` operation from src/unnamed/part_002 line 36. -/
def countByte (d : List Nat) (ch : Nat) : Nat := d.count ch

/-- Little-endian read of a single byte at `i`; positions past the end of the
buffer give 0 (the embeddings only read in bounds on the inputs they are run
on). -/
def byteAt (d : List Nat) (i : Nat) : Nat := d.getD i 0

/-- Little-endian 16-bit read at offset `i`. -/
def readLE16 (d : List Nat) (i : Nat) : Nat :=
  byteAt d i + 256 * byteAt d (i + 1)

/-- Little-endian 32-bit read at offset `i`. -/
def readLE32 (d : List Nat) (i : Nat) : Nat :=
  readLE16 d i + 65536 * readLE16 d (i + 2)

/-- Little-endian 64-bit read at offset `i`. -/
def readLE64 (d : List Nat) (i : Nat) : Nat :=
  readLE32 d i + 4294967296 * readLE32 d (i + 4)

/-- The `(UINT16)~tail` operation of parseFileHeader: 16-bit bitwise
complement. -/
def complement16 (x : Nat) : Nat := 65535 - x % 65536

/-- Return codes surfaced by the parser (the numeric ERR_* / U_* codes of
basetypes.h; the header itself is not part of the snapshot, so the codes are
modelled as a plain enumeration following the spec's error-code list). -/
inductive Status where
  | success
  | invalidParameter
  | invalidVolume
  | volumesNotFound
  | invalidFlashDescriptor
  | unknownItemType
  | invalidSection
  | invalidFile
  deriving DecidableEq, Repr

deriving instance DecidableEq for Except

/-- Diagnostics sent through the `msg` channel by the embedded functions.
Only the identity of each message (and the values it reports, where they
matter to a claim) is modelled, not its printf rendering. -/
inductive Msg where
  | lastVtfCompressed
  | teBaseNeitherOriginalNorAdjusted
  | skippedInvalidFvLength (offset : Nat)
  | skippedInvalidReserved (offset : Nat)
  | skippedInvalidRevision (offset : Nat)
  | getVolumeSizeFailed (e : Status)
  | volumesOverlapEnd
  | volumeHeaderParseFailed (e : Status)
  | volumeSizeMismatch (hdr bm : Nat)
  | undecidedAmbiguous
  | acmFoundNoKeyManifest
  | acmKeyManifestFoundNoBootPolicy
  | bpKeyHashMismatch
  deriving DecidableEq, Repr

/- Node types from src/common/types.h (`Types::ItemTypes`, Root = 60). -/
namespace Types

def Root : Nat := 60
def Capsule : Nat := 61
def Image : Nat := 62
def Region : Nat := 63
def Padding : Nat := 64
def Volume : Nat := 65
def File : Nat := 66
def Section : Nat := 67
def FreeSpace : Nat := 68

end Types

/- Node subtypes from src/common/types.h. -/
namespace Subtypes

def UnknownVolume : Nat := 90
def Ffs2Volume : Nat := 91
def Ffs3Volume : Nat := 92
def ZeroPadding : Nat := 110
def OnePadding : Nat := 111
def DataPadding : Nat := 112

end Subtypes

/-- Modelled from the spec: the section-type byte for TE image sections
(`EFI_SECTION_TE`); the defining header ffs.h is not part of the snapshot.
The standard PI value 0x12 is used. -/
def EFI_SECTION_TE : Nat := 18

/-- The `ALIGN8` macro (basetypes.h is not in the snapshot; the spec demands
"rounded up to 8", matching the usual `(((v)+7) & ~7)` definition). -/
def align8 (n : Nat) : Nat := (n + 7) / 8 * 8

/-- The `ALIGN4` macro, rounding up to a multiple of 4. -/
def align4 (n : Nat) : Nat := (n + 3) / 4 * 4

/-- The `FfsParser::getPaddingType` classifier from
src/common/ffsparser.cpp: all-0x00 padding is ZeroPadding, all-0xFF padding
is OnePadding, anything else DataPadding. -/
def getPaddingType (padding : List Nat) : Nat :=
  if countByte padding 0 = padding.length then Subtypes.ZeroPadding
  else if countByte padding 255 = padding.length then Subtypes.OnePadding
  else Subtypes.DataPadding

/-
Volume header model (src/common/ffsparser.cpp, FfsParser::parseVolumeHeader,
lines 954-996, and the identical checks of src/unnamed/part_003 lines
901-942).  The fixed `EFI_FIRMWARE_VOLUME_HEADER` layout (ffs.h is not in the
snapshot; the layout below follows the spec and the offsets the code itself
certifies: the signature sits at offset 40 and `sizeof` is 64):
ZeroVector 0..15, FileSystemGuid 16..31, FvLength 32..39 (UINT64),
Signature 40..43, Attributes 44..47, HeaderLength 48..49 (UINT16),
Checksum 50..51, ExtHeaderOffset 52..53 (UINT16), Reserved 54,
Revision 55, BlockMap from 56 (two UINT32 per entry), total 64.
`sizeof(EFI_FIRMWARE_VOLUME_EXT_HEADER)` (FvName GUID + UINT32 ExtHeaderSize)
is 20.
-/

/-- Size in bytes of `EFI_FIRMWARE_VOLUME_HEADER` (the code's own message
says "volume header size 40h (64)"). -/
def sizeofVolumeHeader : Nat := 64

/-- Size in bytes of `EFI_FV_BLOCK_MAP_ENTRY` (two UINT32 fields). -/
def sizeofBlockMapEntry : Nat := 8

/-- Size in bytes of `EFI_FIRMWARE_VOLUME_EXT_HEADER`. -/
def sizeofVolumeExtHeader : Nat := 20

/-- HeaderLength field of a volume buffer (UINT16 at offset 48). -/
def volHeaderLength (v : List Nat) : Nat := readLE16 v 48

/-- ExtHeaderOffset field of a volume buffer (UINT16 at offset 52). -/
def volExtHeaderOffset (v : List Nat) : Nat := readLE16 v 52

/-- Revision field of a volume buffer (UINT8 at offset 55). -/
def volRevision (v : List Nat) : Nat := byteAt v 55

/-- FvLength field of a volume buffer (UINT64 at offset 32). -/
def volFvLength (v : List Nat) : Nat := readLE64 v 32

/-- Reserved field of a volume buffer (UINT8 at offset 54). -/
def volReserved (v : List Nat) : Nat := byteAt v 54

/-- Return-status skeleton of `FfsParser::parseVolumeHeader`
(src/common/ffsparser.cpp lines 954-996): the function rejects an empty
buffer with `ERR_INVALID_PARAMETER`, then rejects with `ERR_INVALID_VOLUME`
when the buffer is smaller than the 64-byte header, when
`ALIGN8(HeaderLength)` overruns the buffer, or when a revision > 1 header
declares a non-zero `ExtHeaderOffset` whose aligned end overruns the buffer;
every later path of the function returns `ERR_SUCCESS`. -/
def parseVolumeHeaderStatus (volume : List Nat) : Status :=
  if volume.length = 0 then .invalidParameter
  else if volume.length < sizeofVolumeHeader then .invalidVolume
  else if align8 (volHeaderLength volume) > volume.length then .invalidVolume
  else if volRevision volume > 1 ∧ volExtHeaderOffset volume ≠ 0
      ∧ align8 (volExtHeaderOffset volume + sizeofVolumeExtHeader) > volume.length then
    .invalidVolume
  else .success

/-- Effective header size computed by `parseVolumeHeader` on the success
path: the extended-header end for revision > 1 headers with a non-zero
`ExtHeaderOffset` (the UINT32 `ExtHeaderSize` sits 16 bytes into the
extended header), else `HeaderLength`; in both cases rounded up to 8. -/
def volEffectiveHeaderSize (volume : List Nat) : Nat :=
  if volRevision volume > 1 ∧ volExtHeaderOffset volume ≠ 0 then
    align8 (volExtHeaderOffset volume + readLE32 volume (volExtHeaderOffset volume + 16))
  else
    align8 (volHeaderLength volume)

/-
Descriptor-version inference (claim C5).  The two copies of
`FfsParser::parseIntelImage` diverge here: src/common/ffsparser.cpp lines
265-276 accept only the 20 MHz and 17 MHz `ReadClockFrequency` values and
fail otherwise, while src/unnamed/part_003 lines 267-271 treat every
non-20 MHz value as version 2.
-/

/-- Modelled from the spec: `FLASH_DESCRIPTOR_MAX_BASE` of the missing
descriptor.h header (the value 0xE0 used by the upstream project). -/
def FLASH_DESCRIPTOR_MAX_BASE : Nat := 224

/-- Modelled from the spec: the `FLASH_FREQUENCY_20MHZ` constant of the
missing descriptor.h header (value 0). -/
def FLASH_FREQUENCY_20MHZ : Nat := 0

/-- Modelled from the spec: the `FLASH_FREQUENCY_17MHZ` constant of the
missing descriptor.h header (value 6). -/
def FLASH_FREQUENCY_17MHZ : Nat := 6

/-- The three base fields of `FLASH_DESCRIPTOR_MAP` read by the sanity
checks of `parseIntelImage`. -/
structure DescriptorMap where
  masterBase : Nat
  regionBase : Nat
  componentBase : Nat
  deriving DecidableEq, Repr

/-- Base sanity checks performed by both copies of `parseIntelImage` before
the version inference (src/common/ffsparser.cpp lines 242-260). -/
def descriptorMapSane (m : DescriptorMap) : Bool :=
  !(m.masterBase > FLASH_DESCRIPTOR_MAX_BASE
      || m.masterBase == m.regionBase
      || m.masterBase == m.componentBase)
  && !(m.regionBase > FLASH_DESCRIPTOR_MAX_BASE || m.regionBase == m.componentBase)
  && !(m.componentBase > FLASH_DESCRIPTOR_MAX_BASE)

/-- Descriptor-version inference of `FfsParser::parseIntelImage` in
src/common/ffsparser.cpp (lines 242-276): the base sanity checks, then
20 MHz gives version 1, 17 MHz gives version 2, and any other
`ReadClockFrequency` fails with `ERR_INVALID_FLASH_DESCRIPTOR`. -/
def parseIntelImageVersionCommon (m : DescriptorMap) (readClockFrequency : Nat) :
    Except Status Nat :=
  if !descriptorMapSane m then .error .invalidFlashDescriptor
  else if readClockFrequency = FLASH_FREQUENCY_20MHZ then .ok 1
  else if readClockFrequency = FLASH_FREQUENCY_17MHZ then .ok 2
  else .error .invalidFlashDescriptor

/-- Descriptor-version inference of `FfsParser::parseIntelImage` in
src/unnamed/part_003 (lines 246-271): the base sanity checks, then 20 MHz
gives version 1 and every other `ReadClockFrequency` gives version 2. -/
def parseIntelImageVersionNE (m : DescriptorMap) (readClockFrequency : Nat) :
    Except Status Nat :=
  if !descriptorMapSane m then .error .invalidFlashDescriptor
  else if readClockFrequency = FLASH_FREQUENCY_20MHZ then .ok 1
  else .ok 2

/-
Tree model (TreeItem of src/common/treeitem.h and TreeModel of
src/unnamed/part_002).  A node carries the attributes the verified claims
read; `header`/`body` are represented by their sizes plus the parsing-data
fields the second pass uses.  `info` is the ordered list of annotations
accumulated by `addInfo` with append = true.
-/

/-- One `addInfo` annotation of the second pass (the `%08Xh` rendering of the
address values is abstracted away, the numeric value is kept). -/
inductive Note where
  | headerMemoryAddress (a : Nat)
  | dataMemoryAddress (a : Nat)
  | memoryAddress (a : Nat)
  deriving DecidableEq, Repr

/-- Attributes of one `TreeItem` (src/common/treeitem.h lines 23-96), plus
the `PARSING_DATA` fields of the old engine that the second pass reads:
`pdata.offset`, `pdata.file.hasTail` and `pdata.section.teImage`. -/
structure Item where
  itemType : Nat := 0
  subtype : Nat := 0
  offset : Nat := 0
  headerSize : Nat := 0
  bodySize : Nat := 0
  hasTail : Bool := false
  fixed : Bool := false
  compressed : Bool := false
  teImageBase : Nat := 0
  teAdjustedImageBase : Nat := 0
  teRevision : Nat := 0
  info : List Note := []
  deriving DecidableEq, Repr

mutual
inductive PTree where
  | node : Item → PKids → PTree
  deriving DecidableEq
inductive PKids where
  | nil : PKids
  | cons : PTree → PKids → PKids
  deriving DecidableEq
end

/-- Item stored at the root of a subtree. -/
def PTree.item : PTree → Item
  | .node i _ => i

/-- Children of the root of a subtree. -/
def PTree.kids : PTree → PKids
  | .node _ cs => cs

/-- Number of children (`TreeItem::childCount`). -/
def PKids.len : PKids → Nat
  | .nil => 0
  | .cons _ cs => cs.len + 1

/-- Append a child at the back (`TreeItem::appendChild`). -/
def PKids.push : PKids → PTree → PKids
  | .nil, t => .cons t .nil
  | .cons c cs, t => .cons c (cs.push t)

/-- Insert a child at position `n` (used to model `insertChildBefore` /
`insertChildAfter`); positions past the end append. -/
def PKids.insertAt : Nat → PTree → PKids → PKids
  | _, t, .nil => .cons t .nil
  | 0, t, cs => .cons t cs
  | n + 1, t, .cons c cs => .cons c (PKids.insertAt n t cs)

mutual
/-- Subtree addressed by a path of child indices (the model analogue of a
`ModelIndex`; the empty path is the root item). -/
def PTree.sub? : PTree → List Nat → Option PTree
  | t, [] => some t
  | .node _ cs, n :: p => PKids.subIn cs n p
def PKids.subIn : PKids → Nat → List Nat → Option PTree
  | .nil, _, _ => none
  | .cons c _, 0, p => PTree.sub? c p
  | .cons _ cs, n + 1, p => PKids.subIn cs n p
end

mutual
/-- Item stored at a path. -/
def PTree.get? : PTree → List Nat → Option Item
  | .node i _, [] => some i
  | .node _ cs, n :: p => PKids.getIn cs n p
def PKids.getIn : PKids → Nat → List Nat → Option Item
  | .nil, _, _ => none
  | .cons c _, 0, p => PTree.get? c p
  | .cons _ cs, n + 1, p => PKids.getIn cs n p
end

mutual
/-- Apply `f` to the item at the given path, leaving everything else in
place (no-op when the path does not exist). -/
def PTree.update (f : Item → Item) : List Nat → PTree → PTree
  | [], .node i cs => .node (f i) cs
  | n :: p, .node i cs => .node i (PKids.updateIn f n p cs)
def PKids.updateIn (f : Item → Item) : Nat → List Nat → PKids → PKids
  | _, _, .nil => .nil
  | 0, p, .cons c cs => .cons (PTree.update f p c) cs
  | n + 1, p, .cons c cs => .cons c (PKids.updateIn f n p cs)
end

mutual
/-- Apply `g` to the child list of the node at the given path (no-op when
the path does not exist). -/
def PTree.updateKids (g : PKids → PKids) : List Nat → PTree → PTree
  | [], .node i cs => .node i (g cs)
  | n :: p, .node i cs => .node i (PKids.updateKidsIn g n p cs)
def PKids.updateKidsIn (g : PKids → PKids) : Nat → List Nat → PKids → PKids
  | _, _, .nil => .nil
  | 0, p, .cons c cs => .cons (PTree.updateKids g p c) cs
  | n + 1, p, .cons c cs => .cons c (PKids.updateKidsIn g n p cs)
end

mutual
/-- Apply the same item transformation to every node of a tree. -/
def PTree.mapItems (f : Item → Item) : PTree → PTree
  | .node i cs => .node (f i) (PKids.mapItemsIn f cs)
def PKids.mapItemsIn (f : Item → Item) : PKids → PKids
  | .nil => .nil
  | .cons c cs => .cons (PTree.mapItems f c) (PKids.mapItemsIn f cs)
end

mutual
/-- Collect the messages produced node by node during a depth-first walk
(parent first, then the children in order). -/
def PTree.collect (g : Item → List Msg) : PTree → List Msg
  | .node i cs => g i ++ PKids.collectIn g cs
def PKids.collectIn (g : Item → List Msg) : PKids → List Msg
  | .nil => []
  | .cons c cs => PTree.collect g c ++ PKids.collectIn g cs
end

/-- The `TreeModel::setFixed` operation of src/unnamed/part_002 lines
408-430.  A valid `ModelIndex` is a non-empty path (the root item has no
valid index, so `item->parent()` exists whenever the index is valid).
`TreeItem::setFixed` (src/common/treeitem.h line 77) only assigns the flag,
so the code below touches at most the node itself and its immediate
parent. -/
def setFixedModel (t : PTree) (p : List Nat) (fixed : Bool) : PTree :=
  match p, t.get? p with
  | [], _ => t
  | _ :: _, none => t
  | _ :: _, some it =>
    let t1 := t.update (fun i => { i with fixed := fixed }) p
    if fixed then
      match t1.get? p.dropLast with
      | none => t1
      | some parentIt =>
        if it.compressed = true ∧ parentIt.compressed = false then
          t1.update (fun i => { i with fixed := parentIt.fixed }) p
        else if parentIt.itemType ≠ Types.Root then
          t1.update (fun i => { i with fixed := fixed }) p.dropLast
        else t1
    else t1

/-- The `TreeModel::setCompressed` operation of src/unnamed/part_002 lines
432-441: assign the flag of the addressed item (no-op on an invalid
index). -/
def setCompressedModel (t : PTree) (p : List Nat) (compressed : Bool) : PTree :=
  match p, t.get? p with
  | [], _ => t
  | _ :: _, none => t
  | _ :: _, some _ => t.update (fun i => { i with compressed := compressed }) p

/-- Creation modes of `TreeModel::addItem`
(`CREATE_MODE_*` of src/unnamed/part_004). -/
inductive CreateMode where
  | append
  | prepend
  | before
  | after
  deriving DecidableEq, Repr

/-- The compressed flag the new item receives in `TreeModel::addItem`
(src/unnamed/part_002 line 549): `this->compressed(parent)`, which is the
flag of the node the `parent` index points at, and `false` for the invalid
index. -/
def inheritedCompressed (t : PTree) (parent : List Nat) : Bool :=
  match parent, t.get? parent with
  | [], _ => false
  | _ :: _, some it => it.compressed
  | _ :: _, none => false

/-- Insertion step of `TreeModel::addItem` (src/unnamed/part_002 lines
524-574, everything except the final `setFixed` call): the new `TreeItem` is
built with `this->compressed(parent)`; in append/prepend mode it becomes a
child of `parent`, in before/after mode a sibling of `parent` (which then
acts as the anchor) under the anchor's own parent. -/
def addItemRaw (t : PTree) (parent : List Nat) (mode : CreateMode) (newIt : Item) :
    PTree :=
  let leaf : PTree := .node { newIt with compressed := inheritedCompressed t parent } .nil
  match mode with
  | .append =>
    if (t.sub? parent).isSome then t.updateKids (fun cs => cs.push leaf) parent else t
  | .prepend =>
    if (t.sub? parent).isSome then t.updateKids (fun cs => .cons leaf cs) parent else t
  | .before =>
    match parent.getLast?, (t.sub? parent) with
    | some k, some _ => t.updateKids (PKids.insertAt k leaf) parent.dropLast
    | _, _ => t
  | .after =>
    match parent.getLast?, (t.sub? parent) with
    | some k, some _ => t.updateKids (PKids.insertAt (k + 1) leaf) parent.dropLast
    | _, _ => t

/-- Path of the item just created by `addItemRaw` (the `created` index of
src/unnamed/part_002 line 574). -/
def createdPath (t : PTree) (parent : List Nat) (mode : CreateMode) : List Nat :=
  match mode with
  | .append => parent ++ [((t.sub? parent).map (fun s => s.kids.len)).getD 0]
  | .prepend => parent ++ [0]
  | .before => parent.dropLast ++ [parent.getLast?.getD 0]
  | .after => parent.dropLast ++ [parent.getLast?.getD 0 + 1]

/-- The full `TreeModel::addItem` operation of src/unnamed/part_002 lines
524-577: insert the new item, then run the non-trivial `setFixed` logic on
the created index. -/
def addItem (t : PTree) (parent : List Nat) (mode : CreateMode) (newIt : Item) :
    PTree :=
  setFixedModel (addItemRaw t parent mode newIt) (createdPath t parent mode) newIt.fixed

/-
Second pass (claim C1): FfsParser::performSecondPass and
FfsParser::addMemoryAddressesRecursive, src/common/ffsparser.cpp lines
2772-2850.  The recursive walk updates every node from its own fields only,
so it is embedded as a uniform item map plus a message collection over the
same per-node code.
-/

/-- Size of the last VTF as computed at src/common/ffsparser.cpp line 2788:
header size + body size + two tail bytes when the file has a tail. -/
def vtfSizeOf (vtf : Item) : Nat :=
  vtf.headerSize + vtf.bodySize + (if vtf.hasTail then 2 else 0)

/-- Per-node update of `addMemoryAddressesRecursive` (src/common/
ffsparser.cpp lines 2802-2841): non-compressed nodes whose
`(UINT64)diff + offset` does not exceed 0xFFFFFFFF get the memory-address
annotations appended to `info` (both a header and a data address when the
header is non-empty, one plain address otherwise), and uncompressed TE
sections additionally get their rebase revision classified. -/
def addMemNode (diff : Nat) (it : Item) : Item :=
  if it.compressed then it
  else if diff + it.offset ≤ 4294967295 then
    let address := u32add diff it.offset
    let it1 :=
      if it.headerSize ≠ 0 then
        { it with info := it.info ++
            [.headerMemoryAddress address,
             .dataMemoryAddress (u32add address it.headerSize)] }
      else
        { it with info := it.info ++ [.memoryAddress address] }
    if it1.itemType = Types.Section ∧ it1.subtype = EFI_SECTION_TE then
      if it1.teImageBase = u32add address it1.headerSize then
        { it1 with teRevision := 1 }
      else if it1.teAdjustedImageBase = u32add address it1.headerSize then
        { it1 with teRevision := 2 }
      else { it1 with teRevision := 0 }
    else it1
  else it

/-- Message emitted for a node by `addMemoryAddressesRecursive`: an
uncompressed TE section in range whose image base matches neither the
original nor the adjusted base is reported (line 2834). -/
def addMemNodeMsgs (diff : Nat) (it : Item) : List Msg :=
  if it.compressed then []
  else if diff + it.offset ≤ 4294967295 then
    if it.itemType = Types.Section ∧ it.subtype = EFI_SECTION_TE then
      let address := u32add diff it.offset
      if it.teImageBase = u32add address it.headerSize then []
      else if it.teAdjustedImageBase = u32add address it.headerSize then []
      else [.teBaseNeitherOriginalNorAdjusted]
    else []
  else []

/-- The `FfsParser::performSecondPass` operation of src/common/ffsparser.cpp
lines 2772-2795: fail on a missing last VTF; when the last VTF is inside a
compressed item, log and do nothing else; otherwise compute
`diff = 0xFFFFFFFF - vtf.offset - vtfSize + 1` in UINT32 arithmetic and run
the recursive walk over the whole tree. -/
def performSecondPassCommon (t : PTree) (lastVtf : Option (List Nat)) :
    PTree × List Msg × Status :=
  match lastVtf with
  | none => (t, [], .invalidParameter)
  | some p =>
    match t.get? p with
    | none => (t, [], .invalidParameter)
    | some vtf =>
      if vtf.compressed then (t, [.lastVtfCompressed], .success)
      else
        let diff := u32add (u32sub (u32sub 4294967295 vtf.offset) (vtfSizeOf vtf)) 1
        (t.mapItems (addMemNode diff), t.collect (addMemNodeMsgs diff), .success)

/-
Boot Guard cross-check (claim C3): the validation block at the end of
FfsParser::parseFit, src/unnamed/part_003 lines 3395-3410.
-/

/-- The Boot Guard validation block of src/unnamed/part_003 lines 3395-3410,
as a function of the flags and hashes accumulated during FIT parsing
(`bgKmHash` is the Boot Policy key hash recorded from the Key Manifest,
`bgBpHash` the SHA-256 of the public key recorded from the Boot Policy).
Note the middle conjunct of the hash comparison: `bgBpHash.isEmpty()`,
without negation. -/
def parseFitBootGuardCheck (bgAcmFound bgKeyManifestFound bgBootPolicyFound : Bool)
    (bgKmHash bgBpHash : List Nat) : List Msg :=
  if bgAcmFound then
    if !bgKeyManifestFound then [.acmFoundNoKeyManifest]
    else if !bgBootPolicyFound then [.acmKeyManifestFoundNoBootPolicy]
    else if !bgKmHash.isEmpty && bgBpHash.isEmpty && bgKmHash ≠ bgBpHash then
      [.bpKeyHashMismatch]
    else []
  else []

/-
Undecided compression algorithm (claim C4): the disambiguation block of
FfsParser::parseCompressedSectionBody, src/common/ffsparser.cpp lines
2298-2312 (and the identical block of src/unnamed/part_003 lines 2377-2391).
-/

/-- Compression algorithms (`COMPRESSION_ALGORITHM_*`). -/
inductive Algo where
  | algNone
  | efi11
  | tiano
  | lzma
  | imlzma
  | undecided
  deriving DecidableEq, Repr

/-- The undecided-algorithm disambiguation of `parseCompressedSectionBody`
(src/common/ffsparser.cpp lines 2298-2312): when the decompressor reported
`COMPRESSION_ALGORITHM_UNDECIDED`, first pre-parse the Tiano output as
sections and pick Tiano on success, otherwise pre-parse the EFI 1.1 output
and pick EFI 1.1 on success, otherwise report the ambiguity; the chosen
buffer is the one the subsequent final `parseSections` call receives.
`preparse` stands for `ERR_SUCCESS == parseSections(·, index, true)`. -/
def resolveUndecided (preparse : List Nat → Bool) (algorithm : Algo)
    (decompressed efiDecompressed : List Nat) : Algo × List Nat × List Msg :=
  if algorithm = .undecided then
    if preparse decompressed then (.tiano, decompressed, [])
    else if preparse efiDecompressed then (.efi11, efiDecompressed, [])
    else (.undecided, decompressed, [.undecidedAmbiguous])
  else (algorithm, decompressed, [])

/-- Condition under which `parseCompressedSectionBody` marks the section
node compressed (src/common/ffsparser.cpp lines 2320-2321): the final
algorithm is not `COMPRESSION_ALGORITHM_NONE`, and the flag value passed is
always `true`. -/
def compressedFlagWillBeSet (finalAlgorithm : Algo) : Bool :=
  finalAlgorithm ≠ .algNone

/-
File tail check (claim C7): the tail handling of FfsParser::parseFileHeader,
src/common/ffsparser.cpp lines 1551-1567, built on the ByteArray slicers of
src/unnamed/part_002.
-/

/-- Modelled from the spec: the `FFS_ATTRIB_TAIL_PRESENT` attribute bit of
the missing ffs.h header (value 0x01). -/
def FFS_ATTRIB_TAIL_PRESENT : Nat := 1

/-- Tail handling of `parseFileHeader` (src/common/ffsparser.cpp lines
1551-1567): for a revision-1 file with `FFS_ATTRIB_TAIL_PRESENT`, read
`body.right(2)` as the little-endian tail value, flag an invalid tail when
`IntegrityCheck.TailReference` differs from the 16-bit complement of that
value, and strip the body to `body.left(body.size() - 2)`.  Returns the
stored body together with the `msgInvalidTailValue` flag (`none` models a
`std::out_of_range` escape from the slicers). -/
def parseFileTailCheck (revision attributes tailReference : Nat)
    (body : List Nat) : Option (List Nat × Bool) :=
  if revision = 1 ∧ attributes &&& FFS_ATTRIB_TAIL_PRESENT ≠ 0 then
    match right body 2 with
    | none => none
    | some t =>
      let tail := readLE16 t 0
      match left body ((body.length : Int) - 2) with
      | none => none
      | some stripped => some (stripped, decide (tailReference ≠ complement16 tail))
  else some (body, false)

/-
Raw-area walker (claim C6): FfsParser::findNextVolume, FfsParser::
getVolumeSize and FfsParser::parseRawArea.  The two copies diverge in the
handling of a truncated volume: src/unnamed/part_003 lines 829-847 emit the
remaining bytes as a Padding item and break out of the walk, while
src/common/ffsparser.cpp lines 873-878 log the same message and return
ERR_INVALID_VOLUME without creating the padding item.
-/

/-- The 4-byte firmware volume signature `_FVH` (`EFI_FV_SIGNATURE`; ffs.h
is not in the snapshot, the spec fixes the bytes). -/
def fvhSignature : List Nat := [95, 70, 86, 72]

/-- Offset 40 of the signature inside `EFI_FIRMWARE_VOLUME_HEADER`
(`EFI_FV_SIGNATURE_OFFSET`; fixed by the spec). -/
def fvSignatureOffset : Nat := 40

/-- A node as created by the raw-area walker via `model->addItem` (only the
fields the walker itself determines). -/
structure RawItem where
  itemType : Nat
  subtype : Nat
  offset : Nat
  headerBytes : List Nat
  bodyBytes : List Nat
  deriving DecidableEq, Repr

/-- Candidate-rejection loop of `FfsParser::findNextVolume`
(src/common/ffsparser.cpp lines 1165-1196): starting from the signature hit
`ni`, skip candidates with an insane `FvLength`, `Reserved` byte or
`Revision` byte, searching for the next signature each time.  The fuel
argument only bounds the recursion; signature hits strictly increase and
are bounded by the buffer length, so it is never exhausted when called with
`data.length + 2`. -/
def findNextVolumeLoopCommon (data : List Nat) (localOffset : Nat) :
    Nat → Int → Int × List Msg
  | 0, ni => (ni, [])
  | fuel + 1, ni =>
    if ni > 0 then
      let base := ni.toNat - fvSignatureOffset
      if readLE64 data (base + 32) < sizeofVolumeHeader + 2 * sizeofBlockMapEntry
          ∨ readLE64 data (base + 32) ≥ 4294967295 then
        let (r, ms) := findNextVolumeLoopCommon data localOffset fuel
          (indexOf data fvhSignature (ni + 1))
        (r, .skippedInvalidFvLength (localOffset + base) :: ms)
      else if byteAt data (base + 54) ≠ 255 ∧ byteAt data (base + 54) ≠ 0 then
        let (r, ms) := findNextVolumeLoopCommon data localOffset fuel
          (indexOf data fvhSignature (ni + 1))
        (r, .skippedInvalidReserved (localOffset + base) :: ms)
      else if byteAt data (base + 55) ≠ 1 ∧ byteAt data (base + 55) ≠ 2 then
        let (r, ms) := findNextVolumeLoopCommon data localOffset fuel
          (indexOf data fvhSignature (ni + 1))
        (r, .skippedInvalidRevision (localOffset + base) :: ms)
      else (ni, [])
    else (ni, [])

/-- `FfsParser::findNextVolume` of src/common/ffsparser.cpp lines 1163-1200:
search for the `_FVH` signature from `volumeOffset` on, reject insane
candidates, and return the offset of the volume start (signature offset
minus 40). -/
def findNextVolumeCommon (data : List Nat) (localOffset volumeOffset : Nat) :
    Except Status Nat × List Msg :=
  let ni := indexOf data fvhSignature (volumeOffset : Int)
  if ni < (fvSignatureOffset : Int) then (.error .volumesNotFound, [])
  else
    let (r, ms) := findNextVolumeLoopCommon data localOffset (data.length + 2) ni
    if r < (fvSignatureOffset : Int) then (.error .volumesNotFound, ms)
    else (.ok (r.toNat - fvSignatureOffset), ms)

/-- Candidate-rejection loop of the src/unnamed/part_003 copy of
`findNextVolume` (lines 1100-1129), which checks only `FvLength` and
`Revision` (no `Reserved` check). -/
def findNextVolumeLoopNE (data : List Nat) (localOffset : Nat) :
    Nat → Int → Int × List Msg
  | 0, ni => (ni, [])
  | fuel + 1, ni =>
    if ni > 0 then
      let base := ni.toNat - fvSignatureOffset
      if readLE64 data (base + 32) < sizeofVolumeHeader + 2 * sizeofBlockMapEntry
          ∨ readLE64 data (base + 32) ≥ 4294967295 then
        let (r, ms) := findNextVolumeLoopNE data localOffset fuel
          (indexOf data fvhSignature (ni + 1))
        (r, .skippedInvalidFvLength (localOffset + base) :: ms)
      else if byteAt data (base + 55) ≠ 1 ∧ byteAt data (base + 55) ≠ 2 then
        let (r, ms) := findNextVolumeLoopNE data localOffset fuel
          (indexOf data fvhSignature (ni + 1))
        (r, .skippedInvalidRevision (localOffset + base) :: ms)
      else (ni, [])
    else (ni, [])

/-- The src/unnamed/part_003 copy of `findNextVolume` (lines 1096-1134). -/
def findNextVolumeNE (data : List Nat) (localOffset volumeOffset : Nat) :
    Except Status Nat × List Msg :=
  let ni := indexOf data fvhSignature (volumeOffset : Int)
  if ni < (fvSignatureOffset : Int) then (.error .volumesNotFound, [])
  else
    let (r, ms) := findNextVolumeLoopNE data localOffset (data.length + 2) ni
    if r < (fvSignatureOffset : Int) then (.error .volumesNotFound, ms)
    else (.ok (r.toNat - fvSignatureOffset), ms)

/-- Block-map accumulation loop of `FfsParser::getVolumeSize`: sum
`NumBlocks * Length` (UINT32 arithmetic) over entries until a terminating
zero entry, failing when the entry pointer passes the end of the buffer.
The fuel only bounds the recursion: positions grow by 8 and reads past the
buffer yield 0 and stop the loop, so `data.length + 2` is never
exhausted. -/
def blockMapLoop (data : List Nat) : Nat → Nat → Nat → Except Status Nat
  | 0, _, _ => .error .invalidVolume
  | fuel + 1, pos, acc =>
    if readLE32 data pos ≠ 0 ∧ readLE32 data (pos + 4) ≠ 0 then
      if pos > data.length then .error .invalidVolume
      else blockMapLoop data fuel (pos + 8)
        (u32 (acc + u32 (readLE32 data pos * readLE32 data (pos + 4))))
    else .ok acc

/-- `FfsParser::getVolumeSize` (src/common/ffsparser.cpp lines 1202-1233 and
the identical src/unnamed/part_003 copy): check the space for a header and
two block-map entries, check the signature, walk the block map, and return
`((UINT32)FvLength, block-map size)`, rejecting a zero `FvLength`. -/
def getVolumeSize (data : List Nat) (volumeOffset : Nat) :
    Except Status (Nat × Nat) :=
  if data.length < volumeOffset + sizeofVolumeHeader + 2 * sizeofBlockMapEntry then
    .error .invalidVolume
  else if (data.drop (volumeOffset + fvSignatureOffset)).take 4 ≠ fvhSignature then
    .error .invalidVolume
  else
    match blockMapLoop data (data.length + 2) (volumeOffset + sizeofVolumeHeader) 0 with
    | .error e => .error e
    | .ok bm =>
      let volumeSize := u32 (readLE64 data (volumeOffset + 32))
      if volumeSize = 0 then .error .invalidVolume
      else .ok (volumeSize, bm)

/-- Volume item created by the success path of `parseVolumeHeader`: header
and body split at the effective (extended, 8-aligned) header size.  The
FileSystem-GUID classification into FFSv2/FFSv3 subtypes is not modelled
(the GUID tables live in the missing ffs.h); the subtype is the
`UnknownVolume` default, which is also what the concrete inputs used here
(all-zero `FileSystemGuid`) produce. -/
def parseVolumeHeaderItem (volume : List Nat) (localOffset : Nat) :
    Except Status RawItem :=
  match parseVolumeHeaderStatus volume with
  | .success =>
    let headerSize := volEffectiveHeaderSize volume
    .ok { itemType := Types.Volume, subtype := Subtypes.UnknownVolume,
          offset := localOffset,
          headerBytes := volume.take headerSize,
          bodyBytes := volume.drop headerSize }
  | e => .error e

/-- Trailing padding emitted after the volume walk ("Padding at the end of
BIOS space" in src/common/ffsparser.cpp lines 920-935, the same block in
src/unnamed/part_003 lines 870-882). -/
def rawAreaTrailingPadding (data : List Nat) (offsetBase pvo pvs : Nat)
    (items : List RawItem) : List RawItem :=
  let vo := pvo + pvs
  if data.length > vo then
    let padding := data.drop vo
    items ++ [⟨Types.Padding, getPaddingType padding, offsetBase + vo, [], padding⟩]
  else items

/-- Volume-walk loop of `FfsParser::parseRawArea` in src/common/
ffsparser.cpp (lines 844-918): emit padding between volumes, get the volume
size, and on a volume that overlaps the end of the data log the message and
abort with `ERR_INVALID_VOLUME` (lines 873-878) without creating an item;
otherwise parse the volume header (the `volumeSize > volume.size()` branch
of lines 879-900 is translated although the preceding early return makes it
unreachable in this copy), then continue at the next signature hit.  The
fuel never runs out when it starts at `data.length + 2`: each iteration
advances the volume offset by at least 40 bytes. -/
def parseRawAreaLoopCommon (data : List Nat) (offsetBase : Nat) :
    Nat → Nat → Nat → Nat → List RawItem → List Msg →
    List RawItem × List Msg × Status
  | 0, _, _, _, items, msgs => (items, msgs, .invalidParameter)
  | fuel + 1, pvo, pvs, vo, items, msgs =>
    let items :=
      if vo > pvo + pvs then
        let padding := (data.drop (pvo + pvs)).take (vo - (pvo + pvs))
        items ++ [⟨Types.Padding, getPaddingType padding, offsetBase + pvo + pvs,
                   [], padding⟩]
      else items
    match getVolumeSize data vo with
    | .error e => (items, msgs ++ [.getVolumeSizeFailed e], e)
    | .ok (volumeSize, bmVolumeSize) =>
      if volumeSize > data.length ∨ vo + volumeSize > data.length then
        (items, msgs ++ [.volumesOverlapEnd], .invalidVolume)
      else
        let volume := (data.drop vo).take volumeSize
        if volumeSize > volume.length then
          let padding := (right data (volume.length : Int)).getD []
          let items := items ++ [⟨Types.Padding, getPaddingType padding,
                                  offsetBase + vo, [], padding⟩]
          (rawAreaTrailingPadding data offsetBase vo padding.length items,
           msgs ++ [.volumesOverlapEnd], .success)
        else
          let (items, msgs) :=
            match parseVolumeHeaderItem volume (offsetBase + vo) with
            | .error e => (items, msgs ++ [.volumeHeaderParseFailed e])
            | .ok vitem =>
              (items ++ [vitem],
               if volumeSize ≠ bmVolumeSize then
                 msgs ++ [.volumeSizeMismatch volumeSize bmVolumeSize]
               else msgs)
          match findNextVolumeCommon data offsetBase (vo + volumeSize) with
          | (.error _, ms2) =>
            (rawAreaTrailingPadding data offsetBase vo volumeSize items,
             msgs ++ ms2, .success)
          | (.ok nextVo, ms2) =>
            parseRawAreaLoopCommon data offsetBase fuel vo volumeSize nextVo
              items (msgs ++ ms2)

/-- `FfsParser::parseRawArea` of src/common/ffsparser.cpp lines 809-938:
find the first volume, emit the padding before it, then walk the volumes. -/
def parseRawAreaCommon (data : List Nat) (offsetBase : Nat) :
    List RawItem × List Msg × Status :=
  match findNextVolumeCommon data offsetBase 0 with
  | (.error e, ms) => ([], ms, e)
  | (.ok prevVolumeOffset, ms) =>
    let items :=
      if prevVolumeOffset > 0 then
        let padding := data.take prevVolumeOffset
        [⟨Types.Padding, getPaddingType padding, offsetBase, [], padding⟩]
      else []
    parseRawAreaLoopCommon data offsetBase (data.length + 2)
      prevVolumeOffset 0 prevVolumeOffset items ms

/-- Volume-walk loop of the src/unnamed/part_003 copy of `parseRawArea`
(lines 804-868): identical to the src/common copy except that a volume
overlapping the end of the data is emitted as a Padding item covering the
remaining bytes, the message is logged against that item, and the walk
breaks out (lines 829-847), so that the function still ends successfully. -/
def parseRawAreaLoopNE (data : List Nat) (offsetBase : Nat) :
    Nat → Nat → Nat → Nat → List RawItem → List Msg →
    List RawItem × List Msg × Status
  | 0, _, _, _, items, msgs => (items, msgs, .invalidParameter)
  | fuel + 1, pvo, pvs, vo, items, msgs =>
    let items :=
      if vo > pvo + pvs then
        let padding := (data.drop (pvo + pvs)).take (vo - (pvo + pvs))
        items ++ [⟨Types.Padding, getPaddingType padding, offsetBase + pvo + pvs,
                   [], padding⟩]
      else items
    match getVolumeSize data vo with
    | .error e => (items, msgs ++ [.getVolumeSizeFailed e], e)
    | .ok (volumeSize, bmVolumeSize) =>
      if volumeSize > data.length ∨ vo + volumeSize > data.length then
        let padding := data.drop vo
        let items := items ++ [⟨Types.Padding, getPaddingType padding,
                                offsetBase + vo, [], padding⟩]
        (rawAreaTrailingPadding data offsetBase vo padding.length items,
         msgs ++ [.volumesOverlapEnd], .success)
      else
        let volume := (data.drop vo).take volumeSize
        let (items, msgs) :=
          match parseVolumeHeaderItem volume (offsetBase + vo) with
          | .error e => (items, msgs ++ [.volumeHeaderParseFailed e])
          | .ok vitem =>
            (items ++ [vitem],
             if volumeSize ≠ bmVolumeSize then
               msgs ++ [.volumeSizeMismatch volumeSize bmVolumeSize]
             else msgs)
        match findNextVolumeNE data offsetBase (vo + volumeSize) with
        | (.error _, ms2) =>
          (rawAreaTrailingPadding data offsetBase vo volumeSize items,
           msgs ++ ms2, .success)
        | (.ok nextVo, ms2) =>
          parseRawAreaLoopNE data offsetBase fuel vo volumeSize nextVo
            items (msgs ++ ms2)

/-- The src/unnamed/part_003 copy of `parseRawArea` (lines 765-898). -/
def parseRawAreaNE (data : List Nat) (offsetBase : Nat) :
    List RawItem × List Msg × Status :=
  match findNextVolumeNE data offsetBase 0 with
  | (.error e, ms) => ([], ms, e)
  | (.ok prevVolumeOffset, ms) =>
    let items :=
      if prevVolumeOffset > 0 then
        let padding := data.take prevVolumeOffset
        [⟨Types.Padding, getPaddingType padding, offsetBase, [], padding⟩]
      else []
    parseRawAreaLoopNE data offsetBase (data.length + 2)
      prevVolumeOffset 0 prevVolumeOffset items ms

/-
Compressed-flag propagation (claim C10).
-/

mutual
/-- Every node of the subtree carries `compressed = true`. -/
def PTree.allComp : PTree → Bool
  | .node i cs => i.compressed && PKids.allCompIn cs
def PKids.allCompIn : PKids → Bool
  | .nil => true
  | .cons c cs => PTree.allComp c && PKids.allCompIn cs
end

mutual
/-- Every descendant of a compressed node is itself compressed. -/
def PTree.downClosed : PTree → Bool
  | .node i cs => (!i.compressed || PKids.allCompIn cs) && PKids.downClosedIn cs
def PKids.downClosedIn : PKids → Bool
  | .nil => true
  | .cons c cs => PTree.downClosed c && PKids.downClosedIn cs
end

/-- Tree operations the parser performs on the model: `addItem` with the
default `CREATE_MODE_APPEND` (no call in src/common/ffsparser.cpp or
src/unnamed/part_003 passes any other mode) and `setCompressed(index, true)`
(the only value ever passed, at src/common/ffsparser.cpp lines 2321 and
2396 and src/unnamed/part_003 lines 2404 and 2482). -/
inductive ParseOp where
  | add (parent : List Nat) (payload : Item)
  | setCompressedTrue (p : List Nat)
  deriving DecidableEq, Repr

/-- Effect of one parser tree operation. -/
def applyParseOp (t : PTree) : ParseOp → PTree
  | .add parent payload => addItem t parent .append payload
  | .setCompressedTrue p => setCompressedModel t p true

/-- Run a sequence of parser tree operations. -/
def runParse (t : PTree) : List ParseOp → PTree
  | [] => t
  | op :: ops => runParse (applyParseOp t op) ops

/-- Node addressed by `p` exists and has no children. -/
def childlessAt (t : PTree) (p : List Nat) : Bool :=
  match t.sub? p with
  | some s => s.kids.len == 0
  | none => true

/-- A trace is parse-shaped when every `setCompressed(·, true)` in it is
applied to a node that has no children yet, which is how both call sites
behave: `parseCompressedSectionBody` and `parseGuidedSectionBody` set the
flag on the section node right after decompression and before any child is
created from the decompressed body (section headers are only added with
`preparse == false`, src/common/ffsparser.cpp lines 1886, 1935, 2069, 2131,
2178, 2222). -/
def goodTrace (t : PTree) : List ParseOp → Bool
  | [] => true
  | .add parent payload :: ops => goodTrace (applyParseOp t (.add parent payload)) ops
  | .setCompressedTrue p :: ops =>
    childlessAt t p && goodTrace (applyParseOp t (.setCompressedTrue p)) ops

/-
Concrete inputs used by the counterexamples and witnesses.
-/

/-- Four-level chain root / A / B / C, nothing compressed, nothing fixed
(types: Root and three File nodes). -/
def chainTree : PTree :=
  .node { itemType := Types.Root }
    (.cons (.node { itemType := Types.File }
      (.cons (.node { itemType := Types.File }
        (.cons (.node { itemType := Types.File } .nil) .nil)) .nil)) .nil)

/-- Root with one non-compressed File child holding one compressed Section
child (the configuration the parser itself produces right after
`parseCompressedSectionBody` marks a section compressed). -/
def sectionTree : PTree :=
  .node { itemType := Types.Root }
    (.cons (.node { itemType := Types.File }
      (.cons (.node { itemType := Types.Section, compressed := true } .nil) .nil))
     .nil)

/-- A 96-byte raw area holding a confirmed volume candidate at offset 0:
`_FVH` at offset 40, `FvLength` = 256 (exceeding the 96 available bytes),
`Reserved` = 0, `Revision` = 1, and an immediately-terminated block map. -/
def rawArea96 : List Nat :=
  ((((List.replicate 96 0).set 33 1).set 40 95).set 41 70 |>.set 42 86
    |>.set 43 72).set 55 1

/-- A 65-byte volume buffer whose `HeaderLength` field equals 65, the total
buffer length, with `Revision` = 1. -/
def volume65 : List Nat :=
  ((List.replicate 65 0).set 48 65).set 55 1

/-- A 72-byte volume buffer whose `HeaderLength` field equals 72, the total
buffer length, with `Revision` = 1. -/
def volume72 : List Nat :=
  ((List.replicate 72 0).set 48 72).set 55 1

/-- A small tree for the second-pass witness: root at offset 0 with one
volume child at offset 16 whose only child is the last VTF, a file at
offset 0xFFFFB0 with a 24-byte header and an 56-byte body and no tail. -/
def vtfTree : PTree :=
  .node { itemType := Types.Root }
    (.cons (.node { itemType := Types.Volume, offset := 16, headerSize := 72,
                    bodySize := 1000 }
      (.cons (.node { itemType := Types.File, offset := 16777136,
                      headerSize := 24, bodySize := 56 } .nil) .nil)) .nil)

/-
Theorems.  First the generic tree lemmas shared by several claims.
-/

/-- Child-list step of `get?_update`, parameterised by the induction
hypothesis on the (shorter) remaining path. -/
theorem PKids.getIn_updateIn (f : Item → Item) (p : List Nat)
    (ih : ∀ t q, PTree.get? (PTree.update f p t) q
      = if q = p then (PTree.get? t q).map f else PTree.get? t q) :
    ∀ (n : Nat) (cs : PKids) (m : Nat) (q : List Nat),
      PKids.getIn (PKids.updateIn f n p cs) m q
        = if m = n ∧ q = p then (PKids.getIn cs m q).map f
          else PKids.getIn cs m q := by
  intro n
  induction n with
  | zero =>
    intro cs m q
    cases cs with
    | nil => cases m <;> simp [PKids.updateIn, PKids.getIn]
    | cons c cs =>
      cases m with
      | zero => simpa [PKids.updateIn, PKids.getIn] using ih c q
      | succ m => simp [PKids.updateIn, PKids.getIn]
  | succ n ihn =>
    intro cs m q
    cases cs with
    | nil => cases m <;> simp [PKids.updateIn, PKids.getIn]
    | cons c cs =>
      cases m with
      | zero => simp [PKids.updateIn, PKids.getIn]
      | succ m => simpa [PKids.updateIn, PKids.getIn, Nat.succ_inj] using ihn cs m q

/-- `PTree.update` changes exactly the item at its path. -/
theorem PTree.get?_update (f : Item → Item) :
    ∀ (p : List Nat) (t : PTree) (q : List Nat),
      PTree.get? (PTree.update f p t) q
        = if q = p then (PTree.get? t q).map f else PTree.get? t q := by
  intro p
  induction p with
  | nil =>
    intro t q
    cases t with | node i cs =>
    cases q with
    | nil => simp [PTree.update, PTree.get?]
    | cons m q => simp [PTree.update, PTree.get?]
  | cons n p ih =>
    intro t q
    cases t with | node i cs =>
    cases q with
    | nil => simp [PTree.update, PTree.get?]
    | cons m q =>
      have h := PKids.getIn_updateIn f p (fun t q => ih t q) n cs m q
      simp only [PTree.update, PTree.get?]
      rw [h]
      by_cases hm : m = n <;> by_cases hq : q = p <;> simp [hm, hq]

/-- Child-list step of `get?_mapItems`, parameterised by the induction
hypothesis on the (shorter) remaining path. -/
theorem PKids.getIn_mapItemsIn (f : Item → Item) (q : List Nat)
    (ih : ∀ t, PTree.get? (PTree.mapItems f t) q = (PTree.get? t q).map f) :
    ∀ (m : Nat) (cs : PKids),
      PKids.getIn (PKids.mapItemsIn f cs) m q = (PKids.getIn cs m q).map f := by
  intro m
  induction m with
  | zero =>
    intro cs
    cases cs with
    | nil => simp [PKids.mapItemsIn, PKids.getIn]
    | cons c cs => simpa [PKids.mapItemsIn, PKids.getIn] using ih c
  | succ m ihm =>
    intro cs
    cases cs with
    | nil => simp [PKids.mapItemsIn, PKids.getIn]
    | cons c cs => simpa [PKids.mapItemsIn, PKids.getIn] using ihm cs

/-- `PTree.mapItems` applies its function to the item at every path. -/
theorem PTree.get?_mapItems (f : Item → Item) :
    ∀ (q : List Nat) (t : PTree),
      PTree.get? (PTree.mapItems f t) q = (PTree.get? t q).map f := by
  intro q
  induction q with
  | nil =>
    intro t
    cases t with | node i cs =>
    simp [PTree.mapItems, PTree.get?]
  | cons m q ih =>
    intro t
    cases t with | node i cs =>
    simp only [PTree.mapItems, PTree.get?]
    exact PKids.getIn_mapItemsIn f q (fun t => ih t) m cs

/-- Claim C3.  The claim says the "BootPolicy key hash stored in KeyManifest
differs from the hash of public key stored in BootPolicy" message is emitted
if and only if the hash recorded from the Key Manifest differs from the
SHA-256 of the Boot Policy public key.  The code (src/unnamed/part_003 line
3405) instead requires `bgBpHash.isEmpty()` in the condition, so when both
hashes were recorded and differ (first conjunct below: two distinct 32-byte
digests) no message is emitted, contradicting both the claim and the
message's own text; the message fires exactly when the Key Manifest hash is
present and the Boot Policy hash is absent (third conjunct). -/
theorem C3_bootGuardHashCheck :
    parseFitBootGuardCheck true true true (List.replicate 32 17) (List.replicate 32 34) = []
    ∧ (List.replicate 32 17 : List Nat) ≠ List.replicate 32 34
    ∧ parseFitBootGuardCheck true true true (List.replicate 32 17) [] =
        [.bpKeyHashMismatch] := by
  decide

/-- Claim C4.  When the decompressor returns the Undecided algorithm, the
parser pre-parses the Tiano output first and selects Tiano whenever that
pre-parse succeeds; only on failure is the EFI 1.1 output pre-parsed and
selected on success (so Tiano wins when both would pre-parse cleanly); when
both fail the ambiguity is reported (src/common/ffsparser.cpp lines
2298-2312). -/
theorem C4_undecidedAlgorithmSelection :
    ∀ (preparse : List Nat → Bool) (tianoOut efiOut : List Nat),
      (preparse tianoOut = true →
        resolveUndecided preparse .undecided tianoOut efiOut = (.tiano, tianoOut, [])) ∧
      (preparse tianoOut = false → preparse efiOut = true →
        resolveUndecided preparse .undecided tianoOut efiOut = (.efi11, efiOut, [])) ∧
      (preparse tianoOut = false → preparse efiOut = false →
        resolveUndecided preparse .undecided tianoOut efiOut
          = (.undecided, tianoOut, [.undecidedAmbiguous])) := by
  intro preparse tianoOut efiOut
  refine ⟨fun h1 => ?_, fun h1 h2 => ?_, fun h1 h2 => ?_⟩ <;>
    simp [resolveUndecided, h1]
  · simp [h2]
  · simp [h2]

/-- Witness for C4 at a concrete pre-parse function and concrete buffers. -/
theorem C4_undecidedAlgorithmSelection_witness :
    resolveUndecided (fun l => l == [42]) .undecided [42] [7] = (.tiano, [42], [])
    ∧ resolveUndecided (fun l => l == [42]) .undecided [9] [42] = (.efi11, [42], []) := by
  exact ⟨(C4_undecidedAlgorithmSelection (fun l => l == [42]) [42] [7]).1 (by decide),
    (C4_undecidedAlgorithmSelection (fun l => l == [42]) [9] [42]).2.1 (by decide) (by decide)⟩

/-- Counterexample to claim C5 as stated.  The claim says `parseIntelImage`
"infers version 2 in every other case (it never fails because of an
unrecognised ReadClockFrequency value)", but the src/common/ffsparser.cpp
copy (lines 265-276) returns `ERR_INVALID_FLASH_DESCRIPTOR` for a
`ReadClockFrequency` of 1 (33 MHz) even though the descriptor map (bases 3,
1, 2) passes the base sanity checks. -/
theorem C5_counterexample :
    parseIntelImageVersionCommon ⟨3, 1, 2⟩ 1 = .error .invalidFlashDescriptor
    ∧ descriptorMapSane ⟨3, 1, 2⟩ = true :=
  ⟨rfl, rfl⟩

/-- Claim C5 as amended.  For every descriptor map passing the base sanity
checks: the src/unnamed/part_003 copy infers version 1 exactly for the
20 MHz `ReadClockFrequency` and version 2 in every other case, never
failing; the src/common/ffsparser.cpp copy infers version 1 for 20 MHz and
version 2 for 17 MHz only, failing with `ERR_INVALID_FLASH_DESCRIPTOR` on
every other value. -/
theorem C5_descriptorVersion :
    ∀ (m : DescriptorMap) (freq : Nat), descriptorMapSane m = true →
      (parseIntelImageVersionNE m freq
          = .ok (if freq = FLASH_FREQUENCY_20MHZ then 1 else 2)) ∧
      (parseIntelImageVersionCommon m freq
          = if freq = FLASH_FREQUENCY_20MHZ then .ok 1
            else if freq = FLASH_FREQUENCY_17MHZ then .ok 2
            else .error .invalidFlashDescriptor) := by
  intro m freq h
  constructor
  · by_cases hf : freq = FLASH_FREQUENCY_20MHZ <;>
      simp [parseIntelImageVersionNE, h, hf]
  · by_cases hf : freq = FLASH_FREQUENCY_20MHZ <;>
      by_cases hg : freq = FLASH_FREQUENCY_17MHZ <;>
      simp [parseIntelImageVersionCommon, h, hf, hg]

/-- Witness for C5 at the 17 MHz frequency. -/
theorem C5_descriptorVersion_witness :
    parseIntelImageVersionNE ⟨3, 1, 2⟩ 6 = .ok 2
    ∧ parseIntelImageVersionCommon ⟨3, 1, 2⟩ 6 = .ok 2 := by
  obtain ⟨h1, h2⟩ := C5_descriptorVersion ⟨3, 1, 2⟩ 6 (by decide)
  exact ⟨h1.trans (by rfl), h2.trans (by rfl)⟩

/-- Claim C7.  The claim (and the FFS format) takes the tail to be the last
two bytes of the file body.  Concrete failing input: a revision-1 file with
`TAIL_PRESENT`, body bytes 11h 22h 33h 44h, and
`IntegrityCheck.TailReference` = BBCCh, which is exactly the 16-bit
complement of the genuine last-two-byte tail 4433h (second conjunct).  The
code still flags the tail invalid (first conjunct, flag `true`), because
`ByteArray::right(2)` (src/unnamed/part_002 line 46,
`d.substr(d.size() - 1 - len, len)`) yields the bytes at positions
size-3 and size-2 — here 22h 33h — instead of the last two bytes; the body
is nevertheless stripped of exactly its last two bytes. -/
theorem C7_fileTailCheck :
    parseFileTailCheck 1 1 48076 [17, 34, 51, 68] = some ([17, 34], true)
    ∧ complement16 (readLE16 [51, 68] 0) = 48076 := by
  decide

/-- Counterexample to claim C8 as stated.  A 65-byte volume whose
`HeaderLength` equals the total length 65 is rejected with
`ERR_INVALID_VOLUME`, because the check at src/common/ffsparser.cpp line 974
aligns the header length up to 8 first (`ALIGN8(65) = 72 > 65`). -/
theorem C8_counterexample :
    parseVolumeHeaderStatus volume65 = .invalidVolume
    ∧ volHeaderLength volume65 = volume65.length := by
  decide

/-- Claim C8 as amended: `parseVolumeHeader` rejects when
`ALIGN8(HeaderLength)` exceeds the total volume length.  Hence a
`HeaderLength` equal to the total length is accepted exactly when that
length is a multiple of 8 (for a volume passing the other early checks,
e.g. revision 1), and `HeaderLength` equal to the total length plus one is
always rejected with `INVALID_VOLUME`. -/
theorem C8_headerLengthCheck :
    ∀ v : List Nat, 64 ≤ v.length →
      (volHeaderLength v = v.length → v.length % 8 = 0 → volRevision v ≤ 1 →
        parseVolumeHeaderStatus v = .success) ∧
      (volHeaderLength v = v.length + 1 →
        parseVolumeHeaderStatus v = .invalidVolume) ∧
      (volHeaderLength v = v.length → v.length % 8 ≠ 0 →
        parseVolumeHeaderStatus v = .invalidVolume) := by
  intro v hv
  have hz : v.length ≠ 0 := by omega
  have hlt : ¬ v.length < sizeofVolumeHeader := by
    simp only [sizeofVolumeHeader]; omega
  refine ⟨fun h1 h2 h3 => ?_, fun h1 => ?_, fun h1 h2 => ?_⟩
  · have ha : ¬ align8 (volHeaderLength v) > v.length := by
      rw [h1]; unfold align8; omega
    have hr : ¬ (volRevision v > 1 ∧ volExtHeaderOffset v ≠ 0
        ∧ align8 (volExtHeaderOffset v + sizeofVolumeExtHeader) > v.length) := by
      rintro ⟨hgt, -, -⟩; omega
    simp [parseVolumeHeaderStatus, hz, hlt, ha, hr]
  · have ha : align8 (volHeaderLength v) > v.length := by
      rw [h1]; unfold align8; omega
    simp [parseVolumeHeaderStatus, hz, hlt, ha]
  · have ha : align8 (volHeaderLength v) > v.length := by
      rw [h1]; unfold align8; omega
    simp [parseVolumeHeaderStatus, hz, hlt, ha]

/-- Witness for C8: a 72-byte volume with `HeaderLength` 72 is accepted,
and the same volume truncated to 65 bytes of data with `HeaderLength` 65 is
covered by the counterexample side. -/
theorem C8_headerLengthCheck_witness :
    parseVolumeHeaderStatus volume72 = .success := by
  exact (C8_headerLengthCheck volume72 (by decide)).1 (by decide) (by decide) (by decide)

/-- Counterexample to claim C9 as stated: the slicers are not total.
`mid(5, 1)` on a 2-byte buffer and `right(2)` on a 2-byte buffer both abort
with `std::out_of_range` (modelled as `none`) instead of saturating: in
both cases the computed `substr` start position exceeds the buffer size. -/
theorem C9_counterexample :
    UEFITool.mid [1, 2] 5 1 = none ∧ UEFITool.right [1, 2] 2 = none := by
  decide

/-- Claim C9 as amended.  Actual behaviour of the byte slicers of
src/unnamed/part_002: `left` is total and saturates; `mid` saturates its
length argument but fails (`std::out_of_range`) as soon as the start
position exceeds the buffer size; `right(len)` reads `len` bytes starting
at position `size - 1 - len` (one byte short of the last `len` bytes) and
fails whenever `len ≥ size`; `indexOf` returns the negative sentinel -1
when the pattern does not occur.  The `2^31` bounds restate that the C
arguments and `std::string` sizes are `int`-ranged. -/
theorem C9_slicerBehavior :
    (∀ (d : List Nat) (len : Int), UEFITool.left d len = some (d.take (toSizeT len))) ∧
    (∀ (d : List Nat) (pos len : Int), toSizeT pos ≤ d.length →
        UEFITool.mid d pos len = some ((d.drop (toSizeT pos)).take (toSizeT len))) ∧
    (∀ (d : List Nat) (pos len : Int), d.length < toSizeT pos →
        UEFITool.mid d pos len = none) ∧
    (∀ (d : List Nat) (len : Int), 0 ≤ len → len < (d.length : Int) →
        (d.length : Int) < 2147483648 →
        UEFITool.right d len
          = some ((d.drop (d.length - 1 - len.toNat)).take len.toNat)) ∧
    (∀ (d : List Nat) (len : Int), (d.length : Int) ≤ len → len < 2147483648 →
        UEFITool.right d len = none) ∧
    (∀ (d pat : List Nat) (fromPos : Nat), fromPos < 2147483648 →
        (∀ i, ¬(fromPos ≤ i ∧ List.isPrefixOf pat (d.drop i) = true
                  ∧ i + pat.length ≤ d.length)) →
        UEFITool.indexOf d pat (fromPos : Int) = -1) := by
  refine ⟨fun d len => ?_, fun d pos len h => ?_, fun d pos len h => ?_,
    fun d len h0 h1 h2 => ?_, fun d len h1 h2 => ?_, fun d pat fromPos hfp h => ?_⟩
  · simp [UEFITool.left, substr?]
  · simp [UEFITool.mid, substr?, Nat.not_lt.mpr h]
  · simp [UEFITool.mid, substr?, h]
  · have hpos : toSizeT ((d.length : Int) - 1 - len) = d.length - 1 - len.toNat := by
      unfold toSizeT
      omega
    have hlen : toSizeT len = len.toNat := by
      unfold toSizeT
      omega
    have hle : ¬ d.length < d.length - 1 - len.toNat := by omega
    simp [UEFITool.right, substr?, hpos, hlen, hle]
  · have hpos : d.length < toSizeT ((d.length : Int) - 1 - len) := by
      unfold toSizeT
      omega
    simp [UEFITool.right, substr?, hpos]
  · have hfp2 : toSizeT (fromPos : Int) = fromPos := by
      unfold toSizeT; omega
    have hfind : strFind d pat (toSizeT (fromPos : Int)) = npos := by
      rw [hfp2]
      unfold strFind
      have hnone : (List.range (d.length + 1)).find?
          (fun i => fromPos ≤ i && pat.isPrefixOf (d.drop i)
            && i + pat.length ≤ d.length) = none := by
        rw [List.find?_eq_none]
        intro i _
        simp only [Bool.and_eq_true, decide_eq_true_eq]
        rintro ⟨⟨h1, h2⟩, h3⟩
        exact h i ⟨h1, h2, h3⟩
      rw [hnone]
    rw [UEFITool.indexOf, hfind]
    decide

/-- Witness for C9 at concrete buffers: saturation of `left`, both `mid`
behaviours, the off-by-one window and the failure of `right`, and the
`indexOf` sentinel. -/
theorem C9_slicerBehavior_witness :
    UEFITool.left [1, 2, 3] 5 = some [1, 2, 3]
    ∧ UEFITool.mid [1, 2, 3] 1 2 = some [2, 3]
    ∧ UEFITool.mid [1, 2, 3] 4 1 = none
    ∧ UEFITool.right [1, 2, 3] 1 = some [2]
    ∧ UEFITool.right [1, 2, 3] 3 = none
    ∧ UEFITool.indexOf [1, 2, 3] [9] 0 = -1 := by
  obtain ⟨hL, hM, hMn, hR, hRn, hI⟩ := C9_slicerBehavior
  refine ⟨by rw [hL]; decide, by rw [hM] <;> decide, hMn _ _ _ (by decide),
    by rw [hR] <;> decide, hRn _ _ (by decide) (by decide),
    hI _ _ _ (by decide) ?_⟩
  intro i hi
  obtain ⟨-, h2, h3⟩ := hi
  have hi2 : i ≤ 2 := by simpa using h3
  interval_cases i <;> exact absurd h2 (by decide)

/-- Counterexample to claim C2 as stated.  In the chain root / A / B / C
with nothing compressed, the claim's first branch does not apply and its
second branch promises that after `setFixed(C, true)` "every ancestor of n
below the root ... has fixed = true".  The code (src/unnamed/part_002 line
426) calls the non-recursive `TreeItem::setFixed` on the immediate parent
only, so B becomes fixed but the grandparent A does not. -/
theorem C2_counterexample :
    ((setFixedModel chainTree [0, 0, 0] true).get? [0]).map Item.fixed = some false
    ∧ ((setFixedModel chainTree [0, 0, 0] true).get? [0, 0]).map Item.fixed = some true
    ∧ ((setFixedModel chainTree [0, 0, 0] true).get? [0, 0, 0]).map Item.fixed = some true
    ∧ (chainTree.get? [0]).map Item.compressed = some false
    ∧ (chainTree.get? [0, 0]).map Item.compressed = some false
    ∧ (chainTree.get? [0, 0, 0]).map Item.compressed = some false := by
  decide

/-- Claim C2 as amended.  For a valid index `p` with item `n` and parent
item `parentIt`: `setFixed(p, true)` first sets `n`'s fixed flag; then, if
`n` IS compressed while the parent is NOT (the code's condition at
src/unnamed/part_002 line 420 — the claim stated it the other way round),
`n`'s flag is overwritten by a copy of the parent's fixed flag and nothing
else changes; otherwise, if the parent is not the root, only the immediate
parent's fixed flag is additionally set to true (`TreeItem::setFixed` does
not recurse, so no higher ancestor changes); otherwise only `n` changes. -/
theorem C2_setFixedBehavior :
    ∀ (t : PTree) (p : List Nat) (n parentIt : Item), p ≠ [] →
      t.get? p = some n → t.get? p.dropLast = some parentIt →
      (n.compressed = true → parentIt.compressed = false →
        ((setFixedModel t p true).get? p).map Item.fixed = some parentIt.fixed
        ∧ ∀ q, q ≠ p → (setFixedModel t p true).get? q = t.get? q) ∧
      (¬(n.compressed = true ∧ parentIt.compressed = false) →
        parentIt.itemType ≠ Types.Root →
        ((setFixedModel t p true).get? p).map Item.fixed = some true
        ∧ ((setFixedModel t p true).get? p.dropLast).map Item.fixed = some true
        ∧ ∀ q, q ≠ p → q ≠ p.dropLast →
            (setFixedModel t p true).get? q = t.get? q) ∧
      (¬(n.compressed = true ∧ parentIt.compressed = false) →
        parentIt.itemType = Types.Root →
        ((setFixedModel t p true).get? p).map Item.fixed = some true
        ∧ ∀ q, q ≠ p → (setFixedModel t p true).get? q = t.get? q) := by
  intro t p n parentIt hp hn hparent
  have hdl : p.dropLast ≠ p := by
    intro he
    have := congrArg List.length he
    rw [List.length_dropLast] at this
    cases p with
    | nil => exact hp rfl
    | cons a l => simp at this
  obtain ⟨a, l, rfl⟩ : ∃ a l, p = a :: l := by
    cases p with
    | nil => exact absurd rfl hp
    | cons a l => exact ⟨a, l, rfl⟩
  have hstep : setFixedModel t (a :: l) true
      = (if n.compressed = true ∧ parentIt.compressed = false then
           (t.update (fun i => { i with fixed := true }) (a :: l)).update
             (fun i => { i with fixed := parentIt.fixed }) (a :: l)
         else if parentIt.itemType ≠ Types.Root then
           (t.update (fun i => { i with fixed := true }) (a :: l)).update
             (fun i => { i with fixed := true }) (a :: l).dropLast
         else t.update (fun i => { i with fixed := true }) (a :: l)) := by
    unfold setFixedModel
    rw [hn]
    simp only [if_pos rfl]
    have ht1 : (t.update (fun i => { i with fixed := true }) (a :: l)).get?
        (a :: l).dropLast = some parentIt := by
      rw [PTree.get?_update, if_neg hdl, hparent]
    rw [ht1]
    simp
  refine ⟨fun hc1 hc2 => ?_, fun hc hroot => ?_, fun hc hroot => ?_⟩
  · rw [hstep,
      if_pos (show n.compressed = true ∧ parentIt.compressed = false from ⟨hc1, hc2⟩)]
    constructor
    · rw [PTree.get?_update, if_pos rfl, PTree.get?_update, if_pos rfl, hn]
      rfl
    · intro q hq
      rw [PTree.get?_update, if_neg hq, PTree.get?_update, if_neg hq]
  · rw [hstep, if_neg hc, if_pos hroot]
    refine ⟨?_, ?_, ?_⟩
    · rw [PTree.get?_update, if_neg (Ne.symm hdl), PTree.get?_update, if_pos rfl, hn]
      rfl
    · rw [PTree.get?_update, if_pos rfl, PTree.get?_update, if_neg hdl, hparent]
      rfl
    · intro q hq hq2
      rw [PTree.get?_update, if_neg hq2, PTree.get?_update, if_neg hq]
  · rw [hstep, if_neg hc, if_neg (fun hcon => hcon hroot)]
    constructor
    · rw [PTree.get?_update, if_pos rfl, hn]
      rfl
    · intro q hq
      rw [PTree.get?_update, if_neg hq]

/-- Witness for C2: in the chain tree, `setFixed([0,0], true)` fixes the
node and its immediate parent while leaving the grandchild untouched. -/
theorem C2_setFixedBehavior_witness :
    ((setFixedModel chainTree [0, 0] true).get? [0, 0]).map Item.fixed = some true
    ∧ ((setFixedModel chainTree [0, 0] true).get? [0]).map Item.fixed = some true
    ∧ (setFixedModel chainTree [0, 0] true).get? [0, 0, 0]
        = chainTree.get? [0, 0, 0] := by
  obtain ⟨-, h2, -⟩ := C2_setFixedBehavior chainTree [0, 0]
    { itemType := Types.File } { itemType := Types.File }
    (by decide) (by decide) (by decide)
  obtain ⟨ha, hb, hc⟩ := h2 (by decide) (by decide)
  exact ⟨ha, hb, hc [0, 0, 0] (by decide) (by decide)⟩

/-- Claim C1.  Writing `D` for the address difference
`0xFFFFFFFF - vtf.offset - vtfSize + 1` (computed exactly when
`0 < vtf.offset + vtfSize ≤ 2^32`, with `vtfSize` the sum of the last VTF's
header, body and tail sizes): if the recorded last VTF is compressed, the
second pass logs the message and returns the tree unchanged (annotating no
node); otherwise every non-compressed node with `D + offset ≤ 0xFFFFFFFF`
gets "Header memory address" `D + offset` and "Data memory address"
`D + offset + headerSize` appended (a single "Memory address" annotation
when its header is empty; the data address is a UINT32 and hence reduced
modulo 2^32, which changes nothing whenever the sum does not overflow). -/
theorem C1_secondPassMemoryAddresses :
    ∀ (t : PTree) (p : List Nat) (vtf : Item), t.get? p = some vtf →
      (vtf.compressed = true →
        performSecondPassCommon t (some p) = (t, [.lastVtfCompressed], .success)) ∧
      (vtf.compressed = false →
        0 < vtf.offset + vtfSizeOf vtf →
        vtf.offset + vtfSizeOf vtf ≤ 4294967296 →
        ∀ (q : List Nat) (it : Item), t.get? q = some it →
          it.compressed = false →
          4294967296 - (vtf.offset + vtfSizeOf vtf) + it.offset ≤ 4294967295 →
          ((performSecondPassCommon t (some p)).1.get? q).map Item.info
            = some (it.info ++
                (if it.headerSize ≠ 0 then
                  [Note.headerMemoryAddress
                      (4294967296 - (vtf.offset + vtfSizeOf vtf) + it.offset),
                   Note.dataMemoryAddress
                      (u32 (4294967296 - (vtf.offset + vtfSizeOf vtf) + it.offset
                        + it.headerSize))]
                 else
                  [Note.memoryAddress
                      (4294967296 - (vtf.offset + vtfSizeOf vtf) + it.offset)]))) := by
  intro t p vtf hv
  constructor
  · intro hcomp
    simp [performSecondPassCommon, hv, hcomp]
  · intro hcomp hpos hle q it hq hqc hgate
    have hdiff : u32add (u32sub (u32sub 4294967295 vtf.offset) (vtfSizeOf vtf)) 1
        = 4294967296 - (vtf.offset + vtfSizeOf vtf) := by
      unfold u32add u32sub u32
      omega
    have hrun : (performSecondPassCommon t (some p)).1
        = t.mapItems (addMemNode (4294967296 - (vtf.offset + vtfSizeOf vtf))) := by
      simp [performSecondPassCommon, hv, hcomp, hdiff]
    rw [hrun, PTree.get?_mapItems, hq]
    have haddr : u32add (4294967296 - (vtf.offset + vtfSizeOf vtf)) it.offset
        = 4294967296 - (vtf.offset + vtfSizeOf vtf) + it.offset := by
      unfold u32add u32
      omega
    have hinfo : (addMemNode (4294967296 - (vtf.offset + vtfSizeOf vtf)) it).info
        = it.info ++
            (if it.headerSize ≠ 0 then
              [Note.headerMemoryAddress
                  (4294967296 - (vtf.offset + vtfSizeOf vtf) + it.offset),
               Note.dataMemoryAddress
                  (u32 (4294967296 - (vtf.offset + vtfSizeOf vtf) + it.offset
                    + it.headerSize))]
             else
              [Note.memoryAddress
                  (4294967296 - (vtf.offset + vtfSizeOf vtf) + it.offset)]) := by
      unfold addMemNode
      rw [if_neg (by simp [hqc]), if_pos hgate, haddr]
      dsimp only
      split_ifs <;> simp [u32add]
    simp [hinfo]

/-- Witness for C1 on the concrete `vtfTree`: the last VTF at path [0, 0]
(offset FFFFB0h, 24-byte header, 56-byte body, no tail) yields
`D = FF000000h`; the root (empty header) gets a single memory address,
the volume node gets header and data addresses. -/
theorem C1_secondPassMemoryAddresses_witness :
    ((performSecondPassCommon vtfTree (some [0, 0])).1.get? []).map Item.info
      = some [Note.memoryAddress 4278190080]
    ∧ ((performSecondPassCommon vtfTree (some [0, 0])).1.get? [0]).map Item.info
      = some [Note.headerMemoryAddress 4278190096,
              Note.dataMemoryAddress 4278190168]
    ∧ (performSecondPassCommon vtfTree (some [0, 0])).2.1 = [] := by
  have h := C1_secondPassMemoryAddresses vtfTree [0, 0]
    { itemType := Types.File, offset := 16777136, headerSize := 24, bodySize := 56 }
    (by decide)
  refine ⟨?_, ?_, by decide⟩
  · exact (h.2 (by decide) (by decide) (by decide) []
      { itemType := Types.Root } (by decide) (by decide) (by decide)).trans (by decide)
  · exact (h.2 (by decide) (by decide) (by decide) [0]
      { itemType := Types.Volume, offset := 16, headerSize := 72, bodySize := 1000 }
      (by decide) (by decide) (by decide)).trans (by decide)

/-- Counterexample to claim C6 as stated.  `rawArea96` holds one confirmed
volume candidate at offset 0 whose declared `FvLength` (256) exceeds the 96
available bytes.  The src/common/ffsparser.cpp copy of `parseRawArea` logs
"one of volumes inside overlaps the end of data" but returns
`ERR_INVALID_VOLUME` without emitting any Padding node (lines 873-878),
contrary to the claim; the src/unnamed/part_003 copy behaves as the claim
describes. -/
theorem C6_counterexample :
    parseRawAreaCommon rawArea96 0 = ([], [.volumesOverlapEnd], .invalidVolume)
    ∧ parseRawAreaNE rawArea96 0
      = ([⟨Types.Padding, Subtypes.DataPadding, 0, [], rawArea96⟩],
         [.volumesOverlapEnd], .success) := by
  decide

/-- Claim C6 as amended.  Whenever the volume walk of `parseRawArea`
reaches (in any state: any previous volume offset/size, any items and
messages accumulated so far) a position `vo` where `getVolumeSize` succeeds
but the declared volume size overruns the end of the raw area: the
src/unnamed/part_003 copy appends a Padding item holding exactly the
remaining bytes, logs the overlap warning, and ends the walk successfully,
with all previously created items still in the list (plus the usual
between-volumes padding for this iteration, if any); the src/common copy
logs the same warning but aborts with `ERR_INVALID_VOLUME` and creates no
padding item for the remainder. -/
theorem C6_truncatedVolume :
    ∀ (data : List Nat) (offsetBase fuel pvo pvs vo volumeSize bm : Nat)
      (items : List RawItem) (msgs : List Msg),
      getVolumeSize data vo = .ok (volumeSize, bm) →
      data.length < vo + volumeSize →
      (parseRawAreaLoopNE data offsetBase (fuel + 1) pvo pvs vo items msgs
        = ((if vo > pvo + pvs then
              items ++ [⟨Types.Padding,
                getPaddingType ((data.drop (pvo + pvs)).take (vo - (pvo + pvs))),
                offsetBase + pvo + pvs, [],
                (data.drop (pvo + pvs)).take (vo - (pvo + pvs))⟩]
            else items)
            ++ [⟨Types.Padding, getPaddingType (data.drop vo), offsetBase + vo,
                 [], data.drop vo⟩],
           msgs ++ [.volumesOverlapEnd], .success))
      ∧ (parseRawAreaLoopCommon data offsetBase (fuel + 1) pvo pvs vo items msgs
        = ((if vo > pvo + pvs then
              items ++ [⟨Types.Padding,
                getPaddingType ((data.drop (pvo + pvs)).take (vo - (pvo + pvs))),
                offsetBase + pvo + pvs, [],
                (data.drop (pvo + pvs)).take (vo - (pvo + pvs))⟩]
            else items),
           msgs ++ [.volumesOverlapEnd], .invalidVolume)) := by
  intro data offsetBase fuel pvo pvs vo volumeSize bm items msgs hg hlen
  have hsp : ¬ data.length < vo + sizeofVolumeHeader + 2 * sizeofBlockMapEntry := by
    intro hcon
    simp [getVolumeSize, hcon] at hg
  have hvo : vo ≤ data.length := by
    simp only [sizeofVolumeHeader, sizeofBlockMapEntry] at hsp
    omega
  have hor : volumeSize > data.length ∨ vo + volumeSize > data.length :=
    Or.inr (by omega)
  have htrail : ∀ its, rawAreaTrailingPadding data offsetBase vo
      (data.drop vo).length its = its := by
    intro its
    unfold rawAreaTrailingPadding
    rw [if_neg]
    simp only [List.length_drop]
    omega
  constructor
  · unfold parseRawAreaLoopNE
    rw [hg]
    dsimp only
    rw [if_pos hor, htrail]
  · unfold parseRawAreaLoopCommon
    rw [hg]
    dsimp only
    rw [if_pos hor]

/-- Witness for C6 at the concrete state in which the walk over `rawArea96`
meets its truncated volume. -/
theorem C6_truncatedVolume_witness :
    parseRawAreaLoopNE rawArea96 0 98 0 0 0 [] []
      = ([⟨Types.Padding, Subtypes.DataPadding, 0, [], rawArea96⟩],
         [.volumesOverlapEnd], .success)
    ∧ parseRawAreaLoopCommon rawArea96 0 98 0 0 0 [] []
      = ([], [.volumesOverlapEnd], .invalidVolume) := by
  obtain ⟨h1, h2⟩ := C6_truncatedVolume rawArea96 0 97 0 0 0 256 0 [] []
    (by decide) (by decide)
  exact ⟨h1.trans (by decide), h2.trans (by decide)⟩

/-
Helper lemmas for claim C10.
-/

/-- Appending a child distributes over `allCompIn`. -/
theorem PKids.allCompIn_push : ∀ (cs : PKids) (lf : PTree),
    PKids.allCompIn (cs.push lf) = (PKids.allCompIn cs && PTree.allComp lf)
  | .nil, lf => by
    simp [PKids.push, PKids.allCompIn]
  | .cons c cs, lf => by
    simp [PKids.push, PKids.allCompIn, PKids.allCompIn_push cs lf, Bool.and_assoc]

/-- Appending a child distributes over `downClosedIn`. -/
theorem PKids.downClosedIn_push : ∀ (cs : PKids) (lf : PTree),
    PKids.downClosedIn (cs.push lf) = (PKids.downClosedIn cs && PTree.downClosed lf)
  | .nil, lf => by
    simp [PKids.push, PKids.downClosedIn]
  | .cons c cs, lf => by
    simp [PKids.push, PKids.downClosedIn, PKids.downClosedIn_push cs lf, Bool.and_assoc]

/-- Child-list step for `allComp`-preservation of a child insertion. -/
theorem PKids.allCompIn_insert (lf : PTree) (p : List Nat)
    (ih : ∀ t, PTree.allComp t = true →
      (∀ it, PTree.get? t p = some it → PTree.allComp lf = true) →
      PTree.allComp (PTree.updateKids (fun cs => cs.push lf) p t) = true) :
    ∀ (n : Nat) (cs : PKids), PKids.allCompIn cs = true →
      (∀ it, PKids.getIn cs n p = some it → PTree.allComp lf = true) →
      PKids.allCompIn (PKids.updateKidsIn (fun cs => cs.push lf) n p cs) = true := by
  intro n
  induction n with
  | zero =>
    intro cs hcs hit
    cases cs with
    | nil => simpa [PKids.updateKidsIn] using hcs
    | cons c cs =>
      simp only [PKids.updateKidsIn, PKids.allCompIn, Bool.and_eq_true] at hcs ⊢
      exact ⟨ih c hcs.1 (fun it h => hit it (by simpa [PKids.getIn] using h)), hcs.2⟩
  | succ n ihn =>
    intro cs hcs hit
    cases cs with
    | nil => simpa [PKids.updateKidsIn] using hcs
    | cons c cs =>
      simp only [PKids.updateKidsIn, PKids.allCompIn, Bool.and_eq_true] at hcs ⊢
      exact ⟨hcs.1, ihn cs hcs.2 (fun it h => hit it (by simpa [PKids.getIn] using h))⟩

/-- Inserting a subtree at `p` in an all-compressed tree keeps it
all-compressed, provided the inserted subtree is all-compressed whenever the
insertion point exists. -/
theorem PTree.allComp_insert (lf : PTree) :
    ∀ (p : List Nat) (t : PTree), PTree.allComp t = true →
      (∀ it, PTree.get? t p = some it → PTree.allComp lf = true) →
      PTree.allComp (PTree.updateKids (fun cs => cs.push lf) p t) = true := by
  intro p
  induction p with
  | nil =>
    intro t ht hit
    cases t with | node i cs =>
    have hlf : PTree.allComp lf = true := hit i (by simp [PTree.get?])
    simp only [PTree.updateKids, PTree.allComp, Bool.and_eq_true,
      PKids.allCompIn_push] at ht ⊢
    exact ⟨ht.1, ht.2, hlf⟩
  | cons n p ih =>
    intro t ht hit
    cases t with | node i cs =>
    simp only [PTree.updateKids, PTree.allComp, Bool.and_eq_true] at ht ⊢
    refine ⟨ht.1, PKids.allCompIn_insert lf p ih n cs ht.2 ?_⟩
    intro it h
    exact hit it (by simpa [PTree.get?] using h)

/-- Child-list step for `downClosed`-preservation of a child insertion. -/
theorem PKids.downClosedIn_insert (lf : PTree) (p : List Nat)
    (ihdc : ∀ t, PTree.downClosed t = true →
      (∀ it, PTree.get? t p = some it → it.compressed = true →
        PTree.allComp lf = true) →
      PTree.downClosed (PTree.updateKids (fun cs => cs.push lf) p t) = true) :
    ∀ (n : Nat) (cs : PKids), PKids.downClosedIn cs = true →
      (∀ it, PKids.getIn cs n p = some it → it.compressed = true →
        PTree.allComp lf = true) →
      PKids.downClosedIn (PKids.updateKidsIn (fun cs => cs.push lf) n p cs) = true := by
  intro n
  induction n with
  | zero =>
    intro cs hcs hit
    cases cs with
    | nil => simpa [PKids.updateKidsIn] using hcs
    | cons c cs =>
      simp only [PKids.updateKidsIn, PKids.downClosedIn, Bool.and_eq_true]
        at hcs ⊢
      refine ⟨ihdc c hcs.1 ?_, hcs.2⟩
      intro it h1 h2
      exact hit it (by simpa [PKids.getIn] using h1) h2
  | succ n ihn =>
    intro cs hcs hit
    cases cs with
    | nil => simpa [PKids.updateKidsIn] using hcs
    | cons c cs =>
      simp only [PKids.updateKidsIn, PKids.downClosedIn, Bool.and_eq_true]
        at hcs ⊢
      refine ⟨hcs.1, ihn cs hcs.2 ?_⟩
      intro it h1 h2
      exact hit it (by simpa [PKids.getIn] using h1) h2

/-- Child-list step relating `allCompIn` and `getIn`: in an all-compressed
child list every reachable item is compressed. -/
theorem PKids.getIn_allCompIn (p : List Nat)
    (ih : ∀ t it, PTree.allComp t = true → PTree.get? t p = some it →
      it.compressed = true) :
    ∀ (n : Nat) (cs : PKids) (it : Item), PKids.allCompIn cs = true →
      PKids.getIn cs n p = some it → it.compressed = true := by
  intro n
  induction n with
  | zero =>
    intro cs it hcs hget
    cases cs with
    | nil => simp [PKids.getIn] at hget
    | cons c cs =>
      simp only [PKids.allCompIn, Bool.and_eq_true] at hcs
      exact ih c it hcs.1 (by simpa [PKids.getIn] using hget)
  | succ n ihn =>
    intro cs it hcs hget
    cases cs with
    | nil => simp [PKids.getIn] at hget
    | cons c cs =>
      simp only [PKids.allCompIn, Bool.and_eq_true] at hcs
      exact ihn cs it hcs.2 (by simpa [PKids.getIn] using hget)

/-- In an all-compressed tree every reachable item is compressed. -/
theorem PTree.get?_allComp :
    ∀ (p : List Nat) (t : PTree) (it : Item), PTree.allComp t = true →
      PTree.get? t p = some it → it.compressed = true := by
  intro p
  induction p with
  | nil =>
    intro t it ht hget
    cases t with | node i cs =>
    simp only [PTree.allComp, Bool.and_eq_true] at ht
    simp only [PTree.get?, Option.some_inj] at hget
    exact hget ▸ ht.1
  | cons n p ih =>
    intro t it ht hget
    cases t with | node i cs =>
    simp only [PTree.allComp, Bool.and_eq_true] at ht
    exact PKids.getIn_allCompIn p (fun t it => ih t it) n cs it ht.2
      (by simpa [PTree.get?] using hget)

/-- Inserting a down-closed subtree at path `p` preserves `downClosed`,
provided the subtree is all-compressed whenever the node it is appended to
is compressed. -/
theorem PTree.downClosed_insert (lf : PTree) (hlfdc : PTree.downClosed lf = true) :
    ∀ (p : List Nat) (t : PTree), PTree.downClosed t = true →
      (∀ it, PTree.get? t p = some it → it.compressed = true →
        PTree.allComp lf = true) →
      PTree.downClosed (PTree.updateKids (fun cs => cs.push lf) p t) = true := by
  intro p
  induction p with
  | nil =>
    intro t ht hit
    cases t with | node i cs =>
    simp only [PTree.updateKids, PTree.downClosed, Bool.and_eq_true,
      PKids.downClosedIn_push, PKids.allCompIn_push] at ht ⊢
    refine ⟨?_, ht.2, hlfdc⟩
    cases hcomp : i.compressed with
    | false => simp
    | true =>
      have hall : PKids.allCompIn cs = true := by
        have := ht.1
        rw [hcomp] at this
        simpa using this
      have hlfall : PTree.allComp lf = true :=
        hit i (by simp [PTree.get?]) hcomp
      simp [hall, hlfall]
  | cons n p ih =>
    intro t ht hit
    cases t with | node i cs =>
    simp only [PTree.updateKids, PTree.downClosed, Bool.and_eq_true] at ht ⊢
    constructor
    · cases hcomp : i.compressed with
      | false => simp
      | true =>
        have hall : PKids.allCompIn cs = true := by
          have := ht.1
          rw [hcomp] at this
          simpa using this
        have hres : PKids.allCompIn
            (PKids.updateKidsIn (fun cs => cs.push lf) n p cs) = true := by
          apply PKids.allCompIn_insert lf p (fun c hc hcond =>
            PTree.allComp_insert lf p c hc hcond) n cs hall
          intro it h
          have hitc : it.compressed = true :=
            PKids.getIn_allCompIn p (fun c itc hc hg => PTree.get?_allComp p c itc hc hg)
              n cs it hall h
          exact hit it (by simpa [PTree.get?] using h) hitc
        simp [hres]
    · refine PKids.downClosedIn_insert lf p (fun c hc hi => ih c hc hi) n cs ht.2 ?_
      intro it h1 h2
      exact hit it (by simpa [PTree.get?] using h1) h2

/-- Child-list step: an item update that keeps the compressed flag leaves
`allCompIn` unchanged. -/
theorem PKids.allCompIn_updateIn_pres (g : Item → Item)
    (p : List Nat)
    (ih : ∀ t, PTree.allComp (PTree.update g p t) = PTree.allComp t) :
    ∀ (n : Nat) (cs : PKids),
      PKids.allCompIn (PKids.updateIn g n p cs) = PKids.allCompIn cs := by
  intro n
  induction n with
  | zero =>
    intro cs
    cases cs with
    | nil => rfl
    | cons c cs => simp [PKids.updateIn, PKids.allCompIn, ih c]
  | succ n ihn =>
    intro cs
    cases cs with
    | nil => rfl
    | cons c cs => simp [PKids.updateIn, PKids.allCompIn, ihn cs]

/-- An item update that keeps the compressed flag leaves `allComp`
unchanged. -/
theorem PTree.allComp_update_pres (g : Item → Item)
    (hg : ∀ i, (g i).compressed = i.compressed) :
    ∀ (p : List Nat) (t : PTree),
      PTree.allComp (PTree.update g p t) = PTree.allComp t := by
  intro p
  induction p with
  | nil =>
    intro t
    cases t with | node i cs =>
    simp [PTree.update, PTree.allComp, hg i]
  | cons n p ih =>
    intro t
    cases t with | node i cs =>
    simp [PTree.update, PTree.allComp, PKids.allCompIn_updateIn_pres g p ih n cs]

/-- Child-list step: an item update that keeps the compressed flag leaves
`downClosedIn` unchanged. -/
theorem PKids.downClosedIn_updateIn_pres (g : Item → Item)
    (p : List Nat)
    (ih : ∀ t, PTree.downClosed (PTree.update g p t) = PTree.downClosed t) :
    ∀ (n : Nat) (cs : PKids),
      PKids.downClosedIn (PKids.updateIn g n p cs) = PKids.downClosedIn cs := by
  intro n
  induction n with
  | zero =>
    intro cs
    cases cs with
    | nil => rfl
    | cons c cs => simp [PKids.updateIn, PKids.downClosedIn, ih c]
  | succ n ihn =>
    intro cs
    cases cs with
    | nil => rfl
    | cons c cs => simp [PKids.updateIn, PKids.downClosedIn, ihn cs]

/-- An item update that keeps the compressed flag leaves `downClosed`
unchanged. -/
theorem PTree.downClosed_update_pres (g : Item → Item)
    (hg : ∀ i, (g i).compressed = i.compressed) :
    ∀ (p : List Nat) (t : PTree),
      PTree.downClosed (PTree.update g p t) = PTree.downClosed t := by
  intro p
  induction p with
  | nil =>
    intro t
    cases t with | node i cs =>
    simp [PTree.update, PTree.downClosed, hg i]
  | cons n p ih =>
    intro t
    cases t with | node i cs =>
    simp [PTree.update, PTree.downClosed,
      PKids.downClosedIn_updateIn_pres g p ih n cs,
      PKids.allCompIn_updateIn_pres g p (PTree.allComp_update_pres g hg p) n cs]

/-- Root item after an item update: only the empty path touches it. -/
theorem PTree.item_update (g : Item → Item) (p : List Nat) (t : PTree) :
    (PTree.update g p t).item = if p = [] then g t.item else t.item := by
  cases p <;> cases t <;> simp [PTree.update, PTree.item]

/-- Root item is untouched by a child-list update. -/
theorem PTree.item_updateKids (g : PKids → PKids) (p : List Nat) (t : PTree) :
    (PTree.updateKids g p t).item = t.item := by
  cases p <;> cases t <;> simp [PTree.updateKids, PTree.item]

/-- `setFixedModel` never changes `downClosed` (all its writes only touch
the fixed flag). -/
theorem downClosed_setFixedModel (t : PTree) (p : List Nat) (b : Bool) :
    PTree.downClosed (setFixedModel t p b) = PTree.downClosed t := by
  have hpres : ∀ (g : Item → Item), (∀ i, (g i).compressed = i.compressed) →
      ∀ (q : List Nat) (u : PTree),
        PTree.downClosed (PTree.update g q u) = PTree.downClosed u :=
    fun g hg q u => PTree.downClosed_update_pres g hg q u
  unfold setFixedModel
  cases p with
  | nil => rfl
  | cons a l =>
    cases hget : PTree.get? t (a :: l) with
    | none => simp [hget]
    | some it =>
      simp only [hget]
      cases b with
      | false => simp [hpres (fun i => { i with fixed := false }) (fun i => rfl)]
      | true =>
        cases hp : (PTree.update (fun i => { i with fixed := true }) (a :: l) t).get?
            (a :: l).dropLast with
        | none => simp [hp, hpres (fun i => { i with fixed := true }) (fun i => rfl)]
        | some parentIt =>
          simp only [hp]
          split_ifs <;>
            simp [hpres (fun i => { i with fixed := true }) (fun i => rfl),
              hpres (fun i => { i with fixed := parentIt.fixed }) (fun i => rfl)]

/-- `setFixedModel` never changes the compressed flag of the root item. -/
theorem itemCompressed_setFixedModel (t : PTree) (p : List Nat) (b : Bool) :
    ((setFixedModel t p b).item).compressed = (t.item).compressed := by
  have hitem : ∀ (g : Item → Item), (∀ i, (g i).compressed = i.compressed) →
      ∀ (q : List Nat) (u : PTree),
        ((PTree.update g q u).item).compressed = (u.item).compressed := by
    intro g hg q u
    rw [PTree.item_update]
    split_ifs <;> simp [hg]
  unfold setFixedModel
  cases p with
  | nil => rfl
  | cons a l =>
    cases hget : PTree.get? t (a :: l) with
    | none => simp [hget]
    | some it =>
      simp only [hget]
      cases b with
      | false => simp [hitem (fun i => { i with fixed := false }) (fun i => rfl)]
      | true =>
        cases hp : (PTree.update (fun i => { i with fixed := true }) (a :: l) t).get?
            (a :: l).dropLast with
        | none => simp [hp, hitem (fun i => { i with fixed := true }) (fun i => rfl)]
        | some parentIt =>
          simp only [hp]
          split_ifs <;>
            simp [hitem (fun i => { i with fixed := true }) (fun i => rfl),
              hitem (fun i => { i with fixed := parentIt.fixed }) (fun i => rfl)]

/-- Item at the empty path is the root item. -/
theorem PTree.get?_nil (t : PTree) : PTree.get? t [] = some t.item := by
  cases t
  rfl

/-- Child-list step of `get?_eq_sub`. -/
theorem PKids.getIn_eq_subIn (p : List Nat)
    (ih : ∀ t, PTree.get? t p = (t.sub? p).map PTree.item) :
    ∀ (n : Nat) (cs : PKids),
      PKids.getIn cs n p = (PKids.subIn cs n p).map PTree.item := by
  intro n
  induction n with
  | zero =>
    intro cs
    cases cs with
    | nil => rfl
    | cons c cs => simpa [PKids.getIn, PKids.subIn] using ih c
  | succ n ihn =>
    intro cs
    cases cs with
    | nil => rfl
    | cons c cs => simpa [PKids.getIn, PKids.subIn] using ihn cs

/-- `get?` is the item of the subtree returned by `sub?`. -/
theorem PTree.get?_eq_sub :
    ∀ (p : List Nat) (t : PTree), PTree.get? t p = (t.sub? p).map PTree.item := by
  intro p
  induction p with
  | nil =>
    intro t
    cases t
    rfl
  | cons n p ih =>
    intro t
    cases t with | node i cs =>
    simpa [PTree.get?, PTree.sub?] using PKids.getIn_eq_subIn p (fun t => ih t) n cs

/-- A child list of length zero is empty. -/
theorem PKids.len_zero : ∀ cs : PKids, cs.len = 0 → cs = .nil := by
  intro cs h
  cases cs with
  | nil => rfl
  | cons c cs => simp [PKids.len] at h

/-- Child-list step: raising a compressed flag anywhere keeps an
all-compressed child list all-compressed. -/
theorem PKids.allCompIn_updateIn_setTrue (p : List Nat)
    (ih : ∀ t, PTree.allComp t = true →
      PTree.allComp (PTree.update (fun i => { i with compressed := true }) p t)
        = true) :
    ∀ (n : Nat) (cs : PKids), PKids.allCompIn cs = true →
      PKids.allCompIn
        (PKids.updateIn (fun i => { i with compressed := true }) n p cs) = true := by
  intro n
  induction n with
  | zero =>
    intro cs hcs
    cases cs with
    | nil => exact hcs
    | cons c cs =>
      simp only [PKids.updateIn, PKids.allCompIn, Bool.and_eq_true] at hcs ⊢
      exact ⟨ih c hcs.1, hcs.2⟩
  | succ n ihn =>
    intro cs hcs
    cases cs with
    | nil => exact hcs
    | cons c cs =>
      simp only [PKids.updateIn, PKids.allCompIn, Bool.and_eq_true] at hcs ⊢
      exact ⟨hcs.1, ihn cs hcs.2⟩

/-- Raising a compressed flag anywhere keeps an all-compressed tree
all-compressed. -/
theorem PTree.allComp_update_setTrue :
    ∀ (p : List Nat) (t : PTree), PTree.allComp t = true →
      PTree.allComp (PTree.update (fun i => { i with compressed := true }) p t)
        = true := by
  intro p
  induction p with
  | nil =>
    intro t ht
    cases t with | node i cs =>
    simp only [PTree.update, PTree.allComp, Bool.and_eq_true] at ht ⊢
    exact ⟨by simp, ht.2⟩
  | cons n p ih =>
    intro t ht
    cases t with | node i cs =>
    simp only [PTree.update, PTree.allComp, Bool.and_eq_true] at ht ⊢
    exact ⟨ht.1, PKids.allCompIn_updateIn_setTrue p ih n cs ht.2⟩

/-- Child-list step of `downClosed_update_setTrue_childless`. -/
theorem PKids.downClosedIn_updateIn_setTrue (p : List Nat)
    (ih : ∀ t, PTree.downClosed t = true → childlessAt t p = true →
      PTree.downClosed (PTree.update (fun i => { i with compressed := true }) p t)
        = true) :
    ∀ (n : Nat) (cs : PKids), PKids.downClosedIn cs = true →
      (match PKids.subIn cs n p with
       | some s => s.kids.len == 0
       | none => true) = true →
      PKids.downClosedIn
        (PKids.updateIn (fun i => { i with compressed := true }) n p cs) = true := by
  intro n
  induction n with
  | zero =>
    intro cs hcs hcl
    cases cs with
    | nil => exact hcs
    | cons c cs =>
      simp only [PKids.updateIn, PKids.downClosedIn, Bool.and_eq_true] at hcs ⊢
      refine ⟨ih c hcs.1 ?_, hcs.2⟩
      simpa [childlessAt, PKids.subIn] using hcl
  | succ n ihn =>
    intro cs hcs hcl
    cases cs with
    | nil => exact hcs
    | cons c cs =>
      simp only [PKids.updateIn, PKids.downClosedIn, Bool.and_eq_true] at hcs ⊢
      refine ⟨hcs.1, ihn cs hcs.2 ?_⟩
      simpa [PKids.subIn] using hcl

/-- Raising the compressed flag of a childless node preserves
`downClosed`. -/
theorem PTree.downClosed_update_setTrue_childless :
    ∀ (p : List Nat) (t : PTree), PTree.downClosed t = true →
      childlessAt t p = true →
      PTree.downClosed (PTree.update (fun i => { i with compressed := true }) p t)
        = true := by
  intro p
  induction p with
  | nil =>
    intro t ht hcl
    cases t with | node i cs =>
    have hnil : cs = .nil := by
      apply PKids.len_zero
      simpa [childlessAt, PTree.sub?, PTree.kids] using hcl
    subst hnil
    simp [PTree.update, PTree.downClosed, PKids.allCompIn, PKids.downClosedIn]
  | cons n p ih =>
    intro t ht hcl
    cases t with | node i cs =>
    simp only [PTree.update, PTree.downClosed, Bool.and_eq_true] at ht ⊢
    constructor
    · cases hcomp : i.compressed with
      | false => simp
      | true =>
        have hall : PKids.allCompIn cs = true := by
          have := ht.1
          rw [hcomp] at this
          simpa using this
        have := PKids.allCompIn_updateIn_setTrue p
          (fun c hc => PTree.allComp_update_setTrue p c hc) n cs hall
        simp [this]
    · refine PKids.downClosedIn_updateIn_setTrue p (fun c hc hcl2 => ih c hc hcl2)
        n cs ht.2 ?_
      simpa [childlessAt, PTree.sub?] using hcl

/-- `setCompressed(index, true)` on a childless node preserves
`downClosed`. -/
theorem downClosed_setCompressedTrue (t : PTree) (p : List Nat) :
    PTree.downClosed t = true → childlessAt t p = true →
    PTree.downClosed (setCompressedModel t p true) = true := by
  intro ht hcl
  unfold setCompressedModel
  cases p with
  | nil => exact ht
  | cons a l =>
    cases hget : PTree.get? t (a :: l) with
    | none => simpa [hget] using ht
    | some it =>
      simp only [hget]
      exact PTree.downClosed_update_setTrue_childless (a :: l) t ht hcl

/-- `setCompressedModel` never changes the root item (its write target is a
valid, hence non-empty, path). -/
theorem itemCompressed_setCompressedModel (t : PTree) (p : List Nat) (b : Bool) :
    ((setCompressedModel t p b).item).compressed = (t.item).compressed := by
  unfold setCompressedModel
  cases p with
  | nil => rfl
  | cons a l =>
    cases hget : PTree.get? t (a :: l) with
    | none => simp [hget]
    | some it =>
      simp only [hget]
      rw [PTree.item_update]
      simp

/-- Append-mode `addItemRaw` preserves `downClosed` when the root item is
not compressed (`compressed(parent)` returns false for the invalid index,
so a root-level insertion also keeps the invariant). -/
theorem downClosed_addItemRaw_append (t : PTree) (parent : List Nat)
    (payload : Item) :
    PTree.downClosed t = true → (t.item).compressed = false →
    PTree.downClosed (addItemRaw t parent .append payload) = true := by
  intro ht hroot
  unfold addItemRaw
  dsimp only
  cases hs : (t.sub? parent).isSome with
  | false => simpa [hs] using ht
  | true =>
    rw [if_pos rfl]
    apply PTree.downClosed_insert _ (by simp [PTree.downClosed,
      PKids.allCompIn, PKids.downClosedIn]) parent t ht
    intro it hit hitc
    have : PTree.allComp
        (PTree.node { payload with compressed := inheritedCompressed t parent }
          .nil)
        = (inheritedCompressed t parent && true) := by
      simp [PTree.allComp, PKids.allCompIn]
    rw [this]
    cases parent with
    | nil =>
      rw [PTree.get?_nil] at hit
      cases hit
      rw [hroot] at hitc
      cases hitc
    | cons a l =>
      simp [inheritedCompressed, hit, hitc]

/-- Append-mode `addItemRaw` does not change the root item. -/
theorem item_addItemRaw_append (t : PTree) (parent : List Nat) (payload : Item) :
    (addItemRaw t parent .append payload).item = t.item := by
  unfold addItemRaw
  dsimp only
  split_ifs <;> simp [PTree.item_updateKids]

/-- The compressed flag visible at any path is untouched by an item update
whose function keeps compressed flags. -/
theorem mapCompressed_update (g : Item → Item)
    (hg : ∀ i, (g i).compressed = i.compressed) (p q : List Nat) (t : PTree) :
    ((PTree.update g p t).get? q).map Item.compressed
      = (t.get? q).map Item.compressed := by
  rw [PTree.get?_update]
  split_ifs with h
  · cases (t.get? q) <;> simp [hg]
  · rfl

/-- `setFixedModel` does not change the compressed flag visible at any
path. -/
theorem mapCompressed_setFixedModel (t : PTree) (p : List Nat) (b : Bool)
    (q : List Nat) :
    ((setFixedModel t p b).get? q).map Item.compressed
      = (t.get? q).map Item.compressed := by
  unfold setFixedModel
  cases p with
  | nil => rfl
  | cons a l =>
    cases hget : PTree.get? t (a :: l) with
    | none => simp [hget]
    | some it =>
      simp only [hget]
      cases b with
      | false =>
        simp [mapCompressed_update (fun i => { i with fixed := false })
          (fun i => rfl)]
      | true =>
        cases hp : (PTree.update (fun i => { i with fixed := true }) (a :: l) t).get?
            (a :: l).dropLast with
        | none =>
          simp [hp, mapCompressed_update (fun i => { i with fixed := true })
            (fun i => rfl)]
        | some parentIt =>
          simp only [hp]
          split_ifs <;>
            simp [mapCompressed_update (fun i => { i with fixed := true })
                (fun i => rfl),
              mapCompressed_update (fun i => { i with fixed := parentIt.fixed })
                (fun i => rfl)]

/-- Reading the appended child at the end of a child list. -/
theorem PKids.getIn_push_len : ∀ (cs : PKids) (lf : PTree) (q : List Nat),
    PKids.getIn (cs.push lf) cs.len q = PTree.get? lf q
  | .nil, lf, q => rfl
  | .cons c cs, lf, q => by
    simpa [PKids.push, PKids.len, PKids.getIn] using PKids.getIn_push_len cs lf q

/-- Child-list step of `get?_insert_created`. -/
theorem PKids.getIn_insert_created (lf : PTree) (p : List Nat)
    (ih : ∀ t s, t.sub? p = some s →
      PTree.get? (PTree.updateKids (fun cs => cs.push lf) p t) (p ++ [s.kids.len])
        = some lf.item) :
    ∀ (n : Nat) (cs : PKids) (s : PTree), PKids.subIn cs n p = some s →
      PKids.getIn (PKids.updateKidsIn (fun cs => cs.push lf) n p cs) n
        (p ++ [s.kids.len]) = some lf.item := by
  intro n
  induction n with
  | zero =>
    intro cs s hs
    cases cs with
    | nil => simp [PKids.subIn] at hs
    | cons c cs =>
      simp only [PKids.subIn] at hs
      simpa [PKids.updateKidsIn, PKids.getIn] using ih c s hs
  | succ n ihn =>
    intro cs s hs
    cases cs with
    | nil => simp [PKids.subIn] at hs
    | cons c cs =>
      simp only [PKids.subIn] at hs
      simpa [PKids.updateKidsIn, PKids.getIn] using ihn cs s hs

/-- After appending a child under the node at `p` (with `s` the subtree at
`p` before the insertion), the new child is reachable at `p ++ [s.kids.len]`
and carries the inserted item. -/
theorem PTree.get?_insert_created (lf : PTree) :
    ∀ (p : List Nat) (t : PTree) (s : PTree), t.sub? p = some s →
      PTree.get? (PTree.updateKids (fun cs => cs.push lf) p t) (p ++ [s.kids.len])
        = some lf.item := by
  intro p
  induction p with
  | nil =>
    intro t s hs
    cases t with | node i cs =>
    simp only [PTree.sub?, Option.some_inj] at hs
    subst hs
    simp only [PTree.updateKids, List.nil_append, PTree.get?, PTree.kids]
    rw [PKids.getIn_push_len, PTree.get?_nil]
  | cons n p ih =>
    intro t s hs
    cases t with | node i cs =>
    simp only [PTree.sub?] at hs
    simpa [PTree.updateKids, PTree.get?] using
      PKids.getIn_insert_created lf p (fun t s h => ih t s h) n cs s hs

/-- One parser tree operation preserves the down-closure invariant and the
non-compressed root. -/
theorem applyParseOp_inv (t : PTree) (op : ParseOp)
    (ht : PTree.downClosed t = true) (hroot : (t.item).compressed = false)
    (hcl : ∀ p, op = .setCompressedTrue p → childlessAt t p = true) :
    PTree.downClosed (applyParseOp t op) = true
    ∧ ((applyParseOp t op).item).compressed = false := by
  cases op with
  | add parent payload =>
    constructor
    · show PTree.downClosed (addItem t parent .append payload) = true
      unfold addItem
      rw [downClosed_setFixedModel]
      exact downClosed_addItemRaw_append t parent payload ht hroot
    · show ((addItem t parent .append payload).item).compressed = false
      unfold addItem
      rw [itemCompressed_setFixedModel, item_addItemRaw_append]
      exact hroot
  | setCompressedTrue p =>
    refine ⟨downClosed_setCompressedTrue t p ht (hcl p rfl), ?_⟩
    show ((setCompressedModel t p true).item).compressed = false
    rw [itemCompressed_setCompressedModel]
    exact hroot

/-- A parse-shaped run of tree operations keeps the tree down-closed. -/
theorem runParse_inv :
    ∀ (ops : List ParseOp) (t : PTree),
      PTree.downClosed t = true → (t.item).compressed = false →
      goodTrace t ops = true →
      PTree.downClosed (runParse t ops) = true
      ∧ ((runParse t ops).item).compressed = false := by
  intro ops
  induction ops with
  | nil => exact fun t ht hroot _ => ⟨ht, hroot⟩
  | cons op ops ih =>
    intro t ht hroot hg
    have hstep : PTree.downClosed (applyParseOp t op) = true
        ∧ ((applyParseOp t op).item).compressed = false := by
      apply applyParseOp_inv t op ht hroot
      intro p hp
      subst hp
      simp only [goodTrace, Bool.and_eq_true] at hg
      exact hg.1
    have hg2 : goodTrace (applyParseOp t op) ops = true := by
      cases op with
      | add parent payload => simpa [goodTrace] using hg
      | setCompressedTrue p =>
        simp only [goodTrace, Bool.and_eq_true] at hg
        exact hg.2
    exact ih (applyParseOp t op) hstep.1 hstep.2 hg2

/-- Counterexample to claim C10 as stated.  The claim's first conjunct says
every node created by `addItem` receives the compressed flag of its parent
at creation time.  In before/after mode the `parent` argument is the anchor
sibling, and `addItem` passes `this->compressed(parent)` (src/unnamed/
part_002 line 549) — the anchor's flag, not the parent's.  Concretely, in
root / File / Section(compressed) — a shape the parser itself produces
right after marking a section compressed — inserting before the Section
creates a node (at path [0,0]) whose compressed flag is true although its
actual parent, the File at [0], is not compressed. -/
theorem C10_counterexample :
    ((addItem sectionTree [0, 0] .before { itemType := Types.File }).get?
        [0, 0]).map Item.compressed = some true
    ∧ ((addItem sectionTree [0, 0] .before { itemType := Types.File }).get?
        [0]).map Item.compressed = some false
    ∧ (sectionTree.get? [0, 0]).map Item.compressed = some true := by
  decide

/-- Claim C10 as amended: (1) in append mode (the only mode the parser
uses) a node created by `addItem` under a valid parent index receives that
parent's compressed flag, and (2) a node created under the invalid (root)
index receives false; (3) the parser only calls `setCompressed` with value
true and only on nodes that have no children yet (its two call sites run
right after decompression, before the decompressed body is parsed into
children), and any run of such operations — appends plus childless
`setCompressed(·, true)` — starting from a down-closed tree with a
non-compressed root keeps the tree down-closed, i.e. every descendant of a
compressed node is itself compressed. -/
theorem C10_compressedPropagation :
    (∀ (t : PTree) (p : List Nat) (parentIt payload : Item) (s : PTree),
      p ≠ [] → t.get? p = some parentIt → t.sub? p = some s →
      ((addItem t p .append payload).get? (p ++ [s.kids.len])).map Item.compressed
        = some parentIt.compressed) ∧
    (∀ (t : PTree) (payload : Item),
      ((addItem t [] .append payload).get? [t.kids.len]).map Item.compressed
        = some false) ∧
    (∀ (t : PTree) (ops : List ParseOp),
      PTree.downClosed t = true → (t.item).compressed = false →
      goodTrace t ops = true →
      PTree.downClosed (runParse t ops) = true) := by
  refine ⟨?_, ?_, fun t ops ht hroot hg => (runParse_inv ops t ht hroot hg).1⟩
  · intro t p parentIt payload s hp hget hs
    unfold addItem
    rw [mapCompressed_setFixedModel]
    unfold addItemRaw
    dsimp only
    have hsome : (t.sub? p).isSome = true := by rw [hs]; rfl
    simp only [hsome, if_true]
    rw [PTree.get?_insert_created _ p t s hs]
    obtain ⟨a, l, rfl⟩ : ∃ a l, p = a :: l := by
      cases p with
      | nil => exact absurd rfl hp
      | cons a l => exact ⟨a, l, rfl⟩
    simp [PTree.item, inheritedCompressed, hget]
  · intro t payload
    unfold addItem
    rw [mapCompressed_setFixedModel]
    unfold addItemRaw
    dsimp only
    have hs : t.sub? [] = some t := by cases t; rfl
    have hsome : (t.sub? []).isSome = true := by rw [hs]; rfl
    simp only [hsome, if_true]
    have hcr := PTree.get?_insert_created
      (PTree.node { payload with compressed := inheritedCompressed t [] } .nil)
      [] t t hs
    simp only [List.nil_append] at hcr
    rw [hcr]
    simp [PTree.item, inheritedCompressed]

/-- Witness for C10: appending under the compressed Section of
`sectionTree` yields a compressed child; appending under the root yields a
non-compressed one; and a concrete parse-shaped trace (add a file, add a
section, mark it compressed while childless, then parse a child into it)
keeps the tree down-closed. -/
theorem C10_compressedPropagation_witness :
    ((addItem sectionTree [0, 0] .append { itemType := Types.Section }).get?
        [0, 0, 0]).map Item.compressed = some true
    ∧ ((addItem sectionTree [] .append { itemType := Types.File }).get?
        [1]).map Item.compressed = some false
    ∧ PTree.downClosed (runParse (PTree.node { itemType := Types.Root } .nil)
        [.add [] { itemType := Types.File },
         .add [0] { itemType := Types.Section },
         .setCompressedTrue [0, 0],
         .add [0, 0] { itemType := Types.Section }]) = true := by
  obtain ⟨h1, h2, h3⟩ := C10_compressedPropagation
  refine ⟨?_, ?_, ?_⟩
  · exact h1 sectionTree [0, 0]
      { itemType := Types.Section, compressed := true }
      { itemType := Types.Section }
      (PTree.node { itemType := Types.Section, compressed := true } PKids.nil)
      (by decide) (by decide) (by decide)
  · exact h2 sectionTree { itemType := Types.File }
  · exact h3 (PTree.node { itemType := Types.Root } .nil) _ (by decide) (by decide)
      (by decide)

end UEFITool
